import Mathlib

/-!
# Verification of the webMarkdownEdit workspace-synchronization layer

This file is a shallow embedding, in Lean 4, of the file-system adapter
(`fileSystem` in the repository's storage module) and of the workspace
operations of the `App` component (save, rename, soft-delete/restore,
session save/restore, listing refresh).

Modelling conventions, used throughout:

* The host file-system store is modelled as a flat, path-keyed record
  `Fs`: a list of `(full path, content)` pairs for files plus a list of
  full paths for directories (the root `[]` always exists).  The real
  store is a tree, but every adapter operation addresses an entry through
  the chain of segment names from the root, so the path-keyed view is the
  standard isomorphic abstraction; directory enumeration order is
  unspecified by the host (the spec calls it "shallow, unordered"), so
  the normalised list order carries no information.
* A *handle* is modelled as the full path it resolved to.  The spec's own
  design note mandates exactly this reading ("treat the handle purely as
  a cache, the path as truth"); a handle is *stale* when its key is no
  longer present in the store.
* `async` host calls that can reject are modelled with `Except FsError`;
  the error constructors mirror the DOMException kinds the File System
  Access API throws (`NotFoundError`, `TypeMismatchError`,
  `InvalidModificationError`).
* JavaScript truthiness on optional strings (`if (x)` with `x` either
  `undefined` or a string) is modelled by `jsTruthy`.
-/

namespace WebMarkdownEdit

/-- A path: the chain of segment names from the workspace root. -/
abbrev FPath := List String

/-- Kinds of directory entries, mirroring `FileSystemHandle.kind`. -/
inductive EntryKind where
  | file
  | dir
deriving Repr, DecidableEq

/-- Errors thrown by host file-system calls (DOMException kinds). -/
inductive FsError where
  | notFound
  | typeMismatch
  | notEmpty
deriving Repr, DecidableEq

/-- The host store: files keyed by full path, plus existing directories.
The root directory `[]` always exists and is not listed in `dirs`. -/
structure Fs where
  files : List (FPath × String)
  dirs : List FPath
deriving Repr, DecidableEq

/-- Association-list lookup by full path. -/
def alookup (l : List (FPath × String)) (p : FPath) : Option String :=
  (l.find? (fun e => decide (e.1 = p))).map Prod.snd

/-- Remove every pair with the given key. -/
def eraseKey (l : List (FPath × String)) (p : FPath) : List (FPath × String) :=
  l.filter (fun e => decide (e.1 ≠ p))

/-- Content of the file at `p`, if present. -/
def Fs.lookupFile (fs : Fs) (p : FPath) : Option String :=
  alookup fs.files p

/-- Does a file exist at `p`? -/
def Fs.fileAt (fs : Fs) (p : FPath) : Bool :=
  (fs.lookupFile p).isSome

/-- Does a directory exist at `p`?  The root `[]` always exists. -/
def Fs.dirAt (fs : Fs) (p : FPath) : Bool :=
  decide (p = []) || decide (p ∈ fs.dirs)

/-- Replace (or insert) the file binding at `p`. -/
def Fs.setFile (fs : Fs) (p : FPath) (c : String) : Fs :=
  ⟨(p, c) :: eraseKey fs.files p, fs.dirs⟩

/-- Record the directory `p` as existing. -/
def Fs.setDir (fs : Fs) (p : FPath) : Fs :=
  ⟨fs.files, p :: fs.dirs.filter (fun d => decide (d ≠ p))⟩

@[simp]
theorem alookup_nil (p : FPath) : alookup [] p = none := rfl

theorem alookup_cons (q : FPath) (c : String) (l : List (FPath × String)) (p : FPath) :
    alookup ((q, c) :: l) p = if q = p then some c else alookup l p := by
  simp only [alookup, List.find?]
  by_cases h : q = p <;> simp [h]

theorem alookup_eraseKey (l : List (FPath × String)) (q p : FPath) :
    alookup (eraseKey l q) p = if p = q then none else alookup l p := by
  induction l with
  | nil => simp [eraseKey]
  | cons e t ih =>
    rcases e with ⟨e1, e2⟩
    by_cases he : e1 = q
    · subst he
      have h0 : eraseKey ((e1, e2) :: t) e1 = eraseKey t e1 := by
        simp [eraseKey, List.filter]
      rw [h0, ih, alookup_cons]
      by_cases hpq : p = e1
      · simp [hpq]
      · have h1 : ¬ e1 = p := fun hc => hpq hc.symm
        simp [hpq, h1]
    · have h0 : eraseKey ((e1, e2) :: t) q = (e1, e2) :: eraseKey t q := by
        simp [eraseKey, List.filter, he]
      rw [h0, alookup_cons, alookup_cons, ih]
      by_cases h1 : e1 = p
      · have hpq : ¬ p = q := fun hc => he (by rw [h1, hc])
        simp [h1, hpq]
      · simp [h1]

theorem lookupFile_setFile (fs : Fs) (p : FPath) (c : String) (q : FPath) :
    (fs.setFile p c).lookupFile q = if q = p then some c else fs.lookupFile q := by
  simp only [Fs.setFile, Fs.lookupFile, alookup_cons, alookup_eraseKey]
  by_cases h : q = p
  · simp [h]
  · have h2 : ¬ p = q := fun hc => h hc.symm
    simp [h, h2]

theorem lookupFile_setDir (fs : Fs) (p : FPath) (q : FPath) :
    (fs.setDir p).lookupFile q = fs.lookupFile q := rfl

theorem dirs_setFile (fs : Fs) (p : FPath) (c : String) :
    (fs.setFile p c).dirs = fs.dirs := rfl

/-! ## Capability-adapter primitives

Each primitive below embeds one host call, addressed through a directory
handle (= its path) exactly as the source uses it. -/

/-- `dirHandle.getFileHandle(name)` (no `create` flag): `NotFoundError`
when absent, `TypeMismatchError` when the name denotes a directory.  The
directory handle itself is stale when `dir` no longer exists. -/
def getFileHandle (fs : Fs) (dir : FPath) (name : String) : Except FsError FPath :=
  if fs.dirAt dir then
    if fs.fileAt (dir ++ [name]) then .ok (dir ++ [name])
    else if fs.dirAt (dir ++ [name]) then .error .typeMismatch
    else .error .notFound
  else .error .notFound

/-- `dirHandle.getFileHandle(name, { create: true })`: returns the
existing file's handle or creates an empty file. -/
def getFileHandleCreate (fs : Fs) (dir : FPath) (name : String) :
    Except FsError (Fs × FPath) :=
  if fs.dirAt dir then
    if fs.dirAt (dir ++ [name]) then .error .typeMismatch
    else .ok (fs.setFile (dir ++ [name]) ((fs.lookupFile (dir ++ [name])).getD ""),
              dir ++ [name])
  else .error .notFound

/-- `dirHandle.getDirectoryHandle(name)` (no `create` flag). -/
def getDirectoryHandle (fs : Fs) (dir : FPath) (name : String) : Except FsError FPath :=
  if fs.dirAt dir then
    if decide ((dir ++ [name]) ∈ fs.dirs) then .ok (dir ++ [name])
    else if fs.fileAt (dir ++ [name]) then .error .typeMismatch
    else .error .notFound
  else .error .notFound

/-- `dirHandle.getDirectoryHandle(name, { create: true })`. -/
def getDirectoryHandleCreate (fs : Fs) (dir : FPath) (name : String) :
    Except FsError (Fs × FPath) :=
  if fs.dirAt dir then
    if decide ((dir ++ [name]) ∈ fs.dirs) then .ok (fs, dir ++ [name])
    else if fs.fileAt (dir ++ [name]) then .error .typeMismatch
    else .ok (fs.setDir (dir ++ [name]), dir ++ [name])
  else .error .notFound

/-- `handle.getFile()` followed by `file.text()`: snapshot the content;
`NotFoundError` when the handle went stale. -/
def readFileH (fs : Fs) (h : FPath) : Except FsError String :=
  match fs.lookupFile h with
  | some c => .ok c
  | none => .error .notFound

/-- `handle.createWritable()` / `write` / `close`: all-or-nothing
replacement of the content; fails when the handle went stale. -/
def writeFileH (fs : Fs) (h : FPath) (c : String) : Except FsError Fs :=
  if fs.fileAt h then .ok (fs.setFile h c) else .error .notFound

/-- Does the directory at `key` have any child? -/
def hasChildren (fs : Fs) (key : FPath) : Bool :=
  fs.files.any (fun e => decide (key <+: e.1)) ||
    fs.dirs.any (fun d => decide (key <+: d ∧ d ≠ key))

/-- `dirHandle.removeEntry(name, { recursive })`: removes the named
child; a non-recursive remove of a non-empty directory fails. -/
def removeEntry (fs : Fs) (dir : FPath) (name : String) (recursive : Bool) :
    Except FsError Fs :=
  let key := dir ++ [name]
  if fs.fileAt key then .ok ⟨eraseKey fs.files key, fs.dirs⟩
  else if decide (key ∈ fs.dirs) then
    if !recursive && hasChildren fs key then .error .notEmpty
    else .ok ⟨fs.files.filter (fun e => decide (¬ key <+: e.1)),
              fs.dirs.filter (fun d => decide (¬ key <+: d))⟩
  else .error .notFound

/-! ## `fileSystem` compound operations (storage module) -/

/-- `fileSystem.saveFile(handle, content)`. -/
def saveFile (fs : Fs) (h : FPath) (c : String) : Except FsError Fs :=
  writeFileH fs h c

/-- `fileSystem.readFile(handle)`. -/
def readFile (fs : Fs) (h : FPath) : Except FsError String :=
  readFileH fs h

/-- `fileSystem.createFileInDir(dirHandle, name, content)`: get-or-create
the child file, then immediately write the content. -/
def createFileInDir (fs : Fs) (dir : FPath) (name : String) (content : String) :
    Except FsError (Fs × FPath) := do
  let (fs1, h) ← getFileHandleCreate fs dir name
  let fs2 ← saveFile fs1 h content
  .ok (fs2, h)

/-- `fileSystem.copyDirectory(source, target)`: recursively copy every
descendant file of `src` into `dst` (overwriting same-named target
files) and recreate every descendant directory.  Denotationally, each
source key `src ++ s` is rebound at `dst ++ s`; target entries not
shadowed by a source entry survive. -/
def copyDirectory (fs : Fs) (src dst : FPath) : Fs :=
  let copiedFiles := fs.files.filterMap (fun e =>
    if src <+: e.1 ∧ e.1 ≠ src then some (dst ++ e.1.drop src.length, e.2) else none)
  let copiedDirs := fs.dirs.filterMap (fun d =>
    if src <+: d ∧ d ≠ src then some (dst ++ d.drop src.length) else none)
  ⟨copiedFiles ++ fs.files.filter (fun e => decide (e.1 ∉ copiedFiles.map Prod.fst)),
   copiedDirs ++ fs.dirs.filter (fun d => decide (d ∉ copiedDirs))⟩

/-- JavaScript `newName || name` (an `undefined` or empty new name falls
back to the old one). -/
def jsOrName (newName : Option String) (name : String) : String :=
  match newName with
  | some s => if s = "" then name else s
  | none => name

/-- `fileSystem.moveEntry(sourceDir, name, targetDir, kind, newName?)`:
for a file — snapshot the source content, get-or-create the target file,
write the content, then remove the source; for a directory — get the
source, get-or-create the target directory, recursively copy, then
remove the source tree. -/
def moveEntry (fs : Fs) (srcDir : FPath) (name : String) (dstDir : FPath)
    (kind : EntryKind) (newName : Option String) : Except FsError Fs :=
  let targetName := jsOrName newName name
  match kind with
  | .file => do
    let srcH ← getFileHandle fs srcDir name
    let content ← readFileH fs srcH
    let (fs1, dstH) ← getFileHandleCreate fs dstDir targetName
    let fs2 ← writeFileH fs1 dstH content
    removeEntry fs2 srcDir name false
  | .dir => do
    let srcH ← getDirectoryHandle fs srcDir name
    let (fs1, dstH) ← getDirectoryHandleCreate fs dstDir targetName
    let fs2 := copyDirectory fs1 srcH dstH
    removeEntry fs2 srcDir name true

/-- Modelled from the spec: the host-native `handle.move(parent, newName)`
primitive (not part of this repository) — an atomic relocation of the
entry under the same parent, which for files replaces a same-named
target file; moving onto a same-named entry of the other kind fails. -/
def nativeMove (fs : Fs) (parent : FPath) (oldName newName : String)
    (kind : EntryKind) : Except FsError Fs :=
  let oldKey := parent ++ [oldName]
  let newKey := parent ++ [newName]
  match kind with
  | .file =>
    if fs.dirAt newKey then .error .typeMismatch
    else match fs.lookupFile oldKey with
      | none => .error .notFound
      | some c => .ok ⟨(newKey, c) :: eraseKey (eraseKey fs.files oldKey) newKey, fs.dirs⟩
  | .dir =>
    if fs.fileAt newKey then .error .typeMismatch
    else if decide (oldKey ∈ fs.dirs) then
      .ok ⟨fs.files.map (fun e =>
              if oldKey <+: e.1 then (newKey ++ e.1.drop oldKey.length, e.2) else e),
           fs.dirs.map (fun d =>
              if oldKey <+: d then newKey ++ d.drop oldKey.length else d)⟩
    else .error .notFound

/-- `fileSystem.renameEntry(parentHandle, oldName, newName, kind)`:
fetch the old entry's handle (errors propagate); use the host-native
`move` when the browser provides it, otherwise fall back to
`moveEntry(parent, oldName, parent, kind, newName)`. -/
def renameEntry (hasNativeMove : Bool) (fs : Fs) (parent : FPath)
    (oldName newName : String) (kind : EntryKind) : Except FsError Fs := do
  let _ ← (match kind with
    | .file => getFileHandle fs parent oldName
    | .dir => getDirectoryHandle fs parent oldName)
  if hasNativeMove then nativeMove fs parent oldName newName kind
  else moveEntry fs parent oldName parent kind (some newName)

/-! ## JavaScript string methods

The source is JavaScript; its string methods are embedded as
structurally recursive functions over the character list (Lean's
built-in counterparts are not kernel-reducible). -/

/-- Helper for `jsSplitSlash`: accumulate the current segment
(in reverse) until the next `'/'`. -/
def splitSlashAux : List Char → List Char → List String
  | [], cur => [String.mk cur.reverse]
  | c :: rest, cur =>
    if c = '/' then String.mk cur.reverse :: splitSlashAux rest []
    else splitSlashAux rest (c :: cur)

/-- JavaScript `s.split('/')` (never empty; `"".split('/')` is `[""]`). -/
def jsSplitSlash (s : String) : List String :=
  splitSlashAux s.data []

/-- JavaScript `s.toLowerCase()` (ASCII case folding). -/
def jsToLower (s : String) : String :=
  String.mk (s.data.map Char.toLower)

/-- JavaScript `s.endsWith(suffix)`. -/
def jsEndsWith (s sfx : String) : Bool :=
  sfx.data.isSuffixOf s.data

/-- JavaScript `s.startsWith(pre)`. -/
def jsStartsWith (s pre : String) : Bool :=
  pre.data.isPrefixOf s.data

/-- Lexicographic comparison of character lists (the default-locale
`localeCompare` is modelled as code-point lexicographic order). -/
def charListLE : List Char → List Char → Bool
  | [], _ => true
  | _ :: _, [] => false
  | a :: as, b :: bs => if a = b then charListLE as bs else decide (a < b)

/-- Name ordering used by the listing sort. -/
def nameLE (a b : String) : Bool :=
  charListLE a.data b.data

/-! ## Directory listing (`fileSystem.listFiles`) -/

/-- A shallow directory entry as yielded by `dirHandle.values()`. -/
structure Entry where
  name : String
  kind : EntryKind
deriving Repr, DecidableEq

/-- If `p` is an immediate child of `dir`, its final segment. -/
def childName (dir p : FPath) : Option String :=
  match p.drop dir.length with
  | [n] => if dir <+: p then some n else none
  | _ => none

/-- The unordered shallow enumeration of `dir` (`dirHandle.values()`;
the host yields children in unspecified order). -/
def entriesOf (fs : Fs) (dir : FPath) : List Entry :=
  fs.dirs.filterMap (fun d => (childName dir d).map (fun n => ⟨n, .dir⟩)) ++
    fs.files.filterMap (fun e => (childName dir e.1).map (fun n => ⟨n, .file⟩))

/-- The sort comparator of `listFiles`: directories before files; within
one kind, by name ascending (`localeCompare` modelled as the code-point
lexicographic order on strings). -/
def entryLE (a b : Entry) : Bool :=
  match a.kind, b.kind with
  | .dir, .file => true
  | .file, .dir => false
  | _, _ => nameLE a.name b.name

/-- Insert into an already-sorted list, before the first element it
compares `≤` to (the stable insertion of `Array.prototype.sort`). -/
def insertLE (x : Entry) : List Entry → List Entry
  | [] => [x]
  | y :: ys => if entryLE x y then x :: y :: ys else y :: insertLE x ys

/-- Sort entries with the listing comparator. -/
def sortEntries : List Entry → List Entry
  | [] => []
  | x :: xs => insertLE x (sortEntries xs)

/-- `fileSystem.listFiles(dirHandle)`: enumerate then sort. -/
def listFiles (fs : Fs) (dir : FPath) : Except FsError (List Entry) :=
  if fs.dirAt dir then .ok (sortEntries (entriesOf fs dir)) else .error .notFound

theorem charListLE_total (a : List Char) : ∀ b, charListLE a b = true ∨ charListLE b a = true := by
  induction a with
  | nil => intro b; left; cases b <;> rfl
  | cons x xs ih =>
    intro b
    cases b with
    | nil => right; rfl
    | cons y ys =>
      by_cases hxy : x = y
      · subst hxy
        simpa [charListLE] using ih ys
      · rcases lt_or_gt_of_ne hxy with h | h
        · left; simp [charListLE, hxy, h]
        · right
          have hyx : ¬ y = x := fun hc => hxy hc.symm
          simp [charListLE, hyx]
          exact h

theorem charListLE_trans {a b c : List Char} (h1 : charListLE a b = true)
    (h2 : charListLE b c = true) : charListLE a c = true := by
  induction a generalizing b c with
  | nil => cases c <;> simp [charListLE]
  | cons x xs ih =>
    cases b with
    | nil => simp [charListLE] at h1
    | cons y ys =>
      cases c with
      | nil => simp [charListLE] at h2
      | cons z zs =>
        by_cases hxy : x = y
        · subst hxy
          by_cases hxz : x = z
          · subst hxz
            simp only [charListLE, if_pos rfl] at h1 h2 ⊢
            exact ih h1 h2
          · simp only [charListLE, if_neg hxz] at h2 ⊢
            exact h2
        · by_cases hyz : y = z
          · subst hyz
            simp only [charListLE, if_neg hxy] at h1 ⊢
            exact h1
          · simp only [charListLE, if_neg hxy, if_neg hyz, decide_eq_true_eq] at h1 h2
            by_cases hxz : x = z
            · exact absurd (hxz ▸ h2) (lt_asymm h1)
            · simp only [charListLE, if_neg hxz, decide_eq_true_eq]
              exact lt_trans h1 h2

theorem entryLE_total (a b : Entry) : entryLE a b = true ∨ entryLE b a = true := by
  rcases a with ⟨an, ak⟩; rcases b with ⟨bn, bk⟩
  cases ak <;> cases bk <;> simp [entryLE, nameLE] <;> exact charListLE_total _ _

theorem entryLE_trans {a b c : Entry} (h1 : entryLE a b = true)
    (h2 : entryLE b c = true) : entryLE a c = true := by
  rcases a with ⟨an, ak⟩; rcases b with ⟨bn, bk⟩; rcases c with ⟨cn, ck⟩
  cases ak <;> cases bk <;> cases ck <;> simp_all [entryLE, nameLE] <;>
    exact charListLE_trans h1 h2

theorem insertLE_perm (x : Entry) (l : List Entry) :
    (insertLE x l).Perm (x :: l) := by
  induction l with
  | nil => simp [insertLE]
  | cons y ys ih =>
    by_cases h : entryLE x y = true
    · simp [insertLE, h]
    · simp only [insertLE, h]
      exact (List.Perm.cons y ih).trans (List.Perm.swap x y ys)

theorem sortEntries_perm (l : List Entry) : (sortEntries l).Perm l := by
  induction l with
  | nil => simp [sortEntries]
  | cons x xs ih =>
    exact ((insertLE_perm x (sortEntries xs)).trans (List.Perm.cons x ih))

theorem insertLE_pairwise (x : Entry) (l : List Entry)
    (h : l.Pairwise (fun a b => entryLE a b = true)) :
    (insertLE x l).Pairwise (fun a b => entryLE a b = true) := by
  induction l with
  | nil => simp [insertLE]
  | cons y ys ih =>
    rcases List.pairwise_cons.mp h with ⟨hy, hys⟩
    by_cases hxy : entryLE x y = true
    · rw [show insertLE x (y :: ys) = x :: y :: ys by simp [insertLE, hxy]]
      refine List.pairwise_cons.mpr ⟨?_, h⟩
      intro z hz
      rcases List.mem_cons.mp hz with hz1 | hz1
      · exact hz1 ▸ hxy
      · exact entryLE_trans hxy (hy z hz1)
    · rw [show insertLE x (y :: ys) = y :: insertLE x ys by simp [insertLE, hxy]]
      refine List.pairwise_cons.mpr ⟨?_, ih hys⟩
      intro z hz
      have hyx : entryLE y x = true := by
        rcases entryLE_total x y with h1 | h1
        · exact absurd h1 hxy
        · exact h1
      have hmem := (insertLE_perm x ys).mem_iff.mp hz
      rcases List.mem_cons.mp hmem with hzx | hzy
      · exact hzx ▸ hyx
      · exact hy z hzy

theorem sortEntries_pairwise (l : List Entry) :
    (sortEntries l).Pairwise (fun a b => entryLE a b = true) := by
  induction l with
  | nil => simp [sortEntries]
  | cons x xs ih => exact insertLE_pairwise x (sortEntries xs) ih

/-! ## Workspace state (`App` component)

The `EditorFile` record mirrors `types.ts`; the opaque session-local
`id` (a UUID in the source) is modelled as a `Nat`, and the wall-clock
`lastModified` timestamp is omitted (no claim mentions it). -/

/-- A cursor position. -/
structure Cursor where
  lineNumber : Nat
  column : Nat
deriving Repr, DecidableEq

/-- An open document. -/
structure EditorFile where
  id : Nat
  name : String
  path : Option String
  handle : Option FPath
  content : String
  isDirty : Bool
  cursorPosition : Option Cursor
deriving Repr, DecidableEq

/-- JavaScript truthiness of an optional string (`undefined` and `""`
are falsy). -/
def jsTruthy : Option String → Bool
  | none => false
  | some s => decide (s ≠ "")

/-- JavaScript `a || b` on optional strings. -/
def jsOrS (a b : Option String) : Option String :=
  if jsTruthy a then a else b

/-- `isImageFile`: the regex test `/\.(png|jpg|jpeg|gif|webp|svg)$/i`. -/
def isImageFile (name : String) : Bool :=
  let n := jsToLower name
  jsEndsWith n ".png" || jsEndsWith n ".jpg" || jsEndsWith n ".jpeg" ||
    jsEndsWith n ".gif" || jsEndsWith n ".webp" || jsEndsWith n ".svg"

/-- The reserved trash container name (`TRASH_DIR_NAME`). -/
def TRASH_DIR_NAME : String := ".trash"

/-- Walk `getDirectoryHandle` segment-by-segment from `cur`; `true` iff
every intermediate directory resolves. -/
def walkDirs (fs : Fs) : FPath → List String → Bool
  | _, [] => true
  | cur, d :: ds => decide ((cur ++ [d]) ∈ fs.dirs) && walkDirs fs (cur ++ [d]) ds

/-- `getFileHandleFromPath(rootDir, path)`: split the path on `/`, pop
off the file name (an empty final segment yields `null`), walk the
directory segments, then resolve the file; any failure yields `null`. -/
def getFileHandleFromPath (fs : Fs) (path : String) : Option FPath :=
  let parts := jsSplitSlash path
  let fileName := parts.getLastD ""
  let dirSegs := parts.dropLast
  if fileName = "" then none
  else if walkDirs fs [] dirSegs then
    if fs.fileAt (dirSegs ++ [fileName]) then some (dirSegs ++ [fileName]) else none
  else none

/-- Mark the document `fid` clean (`isDirty: false`). -/
def markClean (files : List EditorFile) (fid : Nat) : List EditorFile :=
  files.map (fun f => if f.id = fid then { f with isDirty := false } else f)

/-- `handleSave`: resolve the active document; for an image do nothing;
a document with no handle but a (truthy) path is re-resolved from the
root and the recovered handle cached; then: write through the handle,
or create the file at the root for a path-less document, or — the final
`else` — merely mark the document clean with a "Saved (Browser
Storage)" toast.  A thrown host error is caught and surfaced as a
"Save failed" toast.  Result: `(store, documents, toast)`. -/
def handleSave (hasRoot : Bool) (fs : Fs) (files : List EditorFile)
    (activeFileId : Option Nat) : Fs × List EditorFile × Option String :=
  match activeFileId.bind (fun i => files.find? (fun f => f.id = i)) with
  | none => (fs, files, none)
  | some current =>
    if isImageFile current.name then (fs, files, none)
    else
      let resolved : Option FPath × List EditorFile :=
        if current.handle.isNone && jsTruthy current.path && hasRoot then
          match getFileHandleFromPath fs ((current.path).getD "") with
          | some h =>
            (some h,
             files.map (fun f => if f.id = current.id then { f with handle := some h } else f))
          | none => (none, files)
        else (current.handle, files)
      match resolved.1 with
      | some h =>
        match saveFile fs h current.content with
        | .ok fs1 => (fs1, markClean resolved.2 current.id, some "Saved to disk")
        | .error _ => (fs, resolved.2, some "Save failed")
      | none =>
        if hasRoot && !jsTruthy current.path then
          match createFileInDir fs [] current.name current.content with
          | .ok (fs1, h) =>
            let path := String.intercalate "/" h
            (fs1,
             resolved.2.map (fun f =>
               if f.id = current.id then
                 { f with handle := some h, path := some path, isDirty := false }
               else f),
             some "Saved to folder")
          | .error _ => (fs, resolved.2, some "Save failed")
        else
          (fs, markClean resolved.2 current.id, some "Saved (Browser Storage)")

/-- The debounced auto-save timer body in `handleContentChange`: find
the captured document id; if it has a handle, `saveFile` — on success
clear `isDirty`, on failure only `console.warn` (state untouched); a
handle-less document is left alone. -/
def autoSaveFlush (fs : Fs) (files : List EditorFile) (currentFileId : Nat)
    (newContent : String) : Fs × List EditorFile :=
  match files.find? (fun f => f.id = currentFileId) with
  | some f =>
    match f.handle with
    | some h =>
      match saveFile fs h newContent with
      | .ok fs1 => (fs1, markClean files currentFileId)
      | .error _ => (fs, files)
    | none => (fs, files)
  | none => (fs, files)

/-! ## Session persistence and restore -/

/-- One saved open-file record `{name, path, cursorPosition}`. -/
structure SavedFile where
  name : String
  path : Option String
  cursorPosition : Option Cursor
deriving Repr, DecidableEq

/-- The per-root Saved Session `{ openFiles, activeFilePath }`. -/
structure SavedWorkspace where
  openFiles : List SavedFile
  activeFilePath : Option String
deriving Repr, DecidableEq

/-- View modes of the editor chrome. -/
inductive ViewMode where
  | editor
  | split
  | preview
  | wysiwyg
deriving Repr, DecidableEq

/-- Color themes. -/
inductive Theme where
  | dark
  | light
deriving Repr, DecidableEq

/-- The root-independent global record `{ sidebarVisible, viewMode, theme }`. -/
structure GlobalState where
  sidebarVisible : Bool
  viewMode : ViewMode
  theme : Theme
deriving Repr, DecidableEq

/-- `saveWorkspaceState`: a no-op without a root or while restoring;
otherwise persist, under the key `mdpro_workspace_<rootName>`, the
path-only projection of the open documents (dropping documents with no
truthy path) plus the active document's path, and separately the global
settings record. -/
def saveWorkspaceState (rootName : Option String) (isRestoring : Bool)
    (files : List EditorFile) (activeFileId : Option Nat)
    (sidebarVisible : Bool) (viewMode : ViewMode) (theme : Theme) :
    Option ((String × SavedWorkspace) × GlobalState) :=
  match rootName with
  | none => none
  | some rn =>
    if isRestoring then none
    else
      some (("mdpro_workspace_" ++ rn,
        { openFiles :=
            ((files.map (fun f => SavedFile.mk f.name f.path f.cursorPosition)).filter
              (fun s => jsTruthy s.path)),
          activeFilePath :=
            (files.find? (fun f => activeFileId = some f.id)).bind (fun f => f.path) }),
        ⟨sidebarVisible, viewMode, theme⟩)

/-- One iteration of the restore loop: a saved entry with a truthy path
whose `getFileHandleFromPath` resolves becomes a `Bound` document
(restored cursor, clean, content read unless the name is an image);
everything else is skipped.  The `id` is filled in afterwards. -/
def restoreOne (fs : Fs) (sf : SavedFile) : Option EditorFile :=
  if jsTruthy sf.path then
    match getFileHandleFromPath fs ((sf.path).getD "") with
    | some h =>
      some { id := 0, name := sf.name, path := sf.path, handle := some h,
             content := if isImageFile (h.getLastD "") then ""
                        else (fs.lookupFile h).getD "",
             isDirty := false, cursorPosition := sf.cursorPosition }
    | none => none
  else none

/-- Assign fresh session-local ids (UUIDs in the source) in order. -/
def assignIds : Nat → List EditorFile → List EditorFile
  | _, [] => []
  | i, f :: fsl => { f with id := i } :: assignIds (i + 1) fsl

/-- JavaScript `a || b` on optional entries. -/
def jsOrE (a b : Option Entry) : Option Entry :=
  match a with
  | some x => some x
  | none => b

/-- The fallback of `restoreWorkspace` when zero documents restored:
list the root, look for a case-insensitive `README.md` file, else the
first file whose lowercased name ends in `.md`, and open it clean as
the sole document; if neither exists (or reading fails), no documents. -/
def restoreFallback (fs : Fs) : List EditorFile × Option Nat :=
  match listFiles fs [] with
  | .error _ => ([], none)
  | .ok items =>
    let readme := items.find? (fun i =>
      decide (jsToLower i.name = "readme.md") && decide (i.kind = .file))
    let firstMd := items.find? (fun i =>
      jsEndsWith (jsToLower i.name) ".md" && decide (i.kind = .file))
    match jsOrE readme firstMd with
    | none => ([], none)
    | some target =>
      if target.kind = .file then
        match readFile fs [target.name] with
        | .ok content =>
          ([{ id := 0, name := target.name, path := some target.name,
              handle := some [target.name], content := content,
              isDirty := false, cursorPosition := none }], some 0)
        | .error _ => ([], none)
      else ([], none)

/-- `restoreWorkspace(dirHandle)`: replay the Saved Session — resolve
each saved path, silently skipping failures; restored documents keep
their saved cursor and are clean; the document whose path equals
`activeFilePath` becomes active (else the first); with zero restored
documents, fall back to the README / first-markdown heuristic.
Result: `(documents, activeFileId)`. -/
def restoreWorkspace (fs : Fs) (saved : Option SavedWorkspace) :
    List EditorFile × Option Nat :=
  let restored := match saved with
    | some sw => assignIds 0 (sw.openFiles.filterMap (restoreOne fs))
    | none => []
  if restored.isEmpty then restoreFallback fs
  else
    let active := match saved with
      | some sw =>
        if jsTruthy sw.activeFilePath then
          match restored.find? (fun d => d.path = sw.activeFilePath) with
          | some d => some d.id
          | none => (restored.head?).map (fun d => d.id)
        else (restored.head?).map (fun d => d.id)
      | none => (restored.head?).map (fun d => d.id)
    (restored, active)

/-! ## Listing refresh, soft delete, restore from trash, rename -/

/-- `refreshProjectFiles`: with the recycle-bin view active, list the
trash container (empty list when it is missing); otherwise list the
root and filter out every entry whose name starts with a dot. -/
def refreshProjectFiles (fs : Fs) (isRecycleBinActive : Bool) : List Entry :=
  if isRecycleBinActive then
    match getDirectoryHandle fs [] TRASH_DIR_NAME with
    | .ok trash =>
      match listFiles fs trash with
      | .ok items => items
      | .error _ => []
    | .error _ => []
  else
    match listFiles fs [] with
    | .ok items => items.filter (fun i => !(jsStartsWith i.name "."))
    | .error _ => []

/-- `confirmDelete`: in the recycle-bin view, remove permanently;
otherwise get-or-create the trash container at the root and move the
entry into it.  Result: `(store, toast)`. -/
def confirmDelete (fs : Fs) (isRecycleBinActive : Bool) (parent : FPath)
    (name : String) (kind : EntryKind) : Fs × String :=
  if isRecycleBinActive then
    match removeEntry fs parent name true with
    | .ok fs1 => (fs1, "Deleted forever")
    | .error _ => (fs, "Delete failed")
  else
    match getDirectoryHandleCreate fs [] TRASH_DIR_NAME with
    | .ok (fs1, trash) =>
      match moveEntry fs1 parent name trash kind none with
      | .ok fs2 => (fs2, "Moved to Recycle Bin")
      | .error _ => (fs1, "Delete failed")
    | .error _ => (fs, "Delete failed")

/-- `handleRestoreFile(fileName)`: only in the recycle-bin view; get the
trash container, infer the kind by attempting a file resolve (falling
back to directory), and move the entry back to the root. -/
def handleRestoreFile (fs : Fs) (isRecycleBinActive : Bool) (fileName : String) :
    Fs × Option String :=
  if !isRecycleBinActive then (fs, none)
  else
    match getDirectoryHandle fs [] TRASH_DIR_NAME with
    | .error _ => (fs, some "Restore failed")
    | .ok trash =>
      let kind : EntryKind :=
        match getFileHandle fs trash fileName with
        | .ok _ => .file
        | .error _ => .dir
      match moveEntry fs trash fileName [] kind none with
      | .ok fs1 => (fs1, some "File Restored")
      | .error _ => (fs, some "Restore failed")

/-- The document update `confirmRename` applies after a successful file
rename: every open document named `oldName` is rebound to the new name,
path and handle — unless it has a (truthy) path that differs from the
renamed entry's old path (`newPath` with its last segment replaced by
`oldName`), in which case it is a same-named file elsewhere and is left
alone. -/
def confirmRenameDocs (docs : List EditorFile) (oldName renameName : String)
    (newPath : Option String) (newHandle : Option FPath) : List EditorFile :=
  docs.map (fun f =>
    if f.name = oldName then
      if jsTruthy f.path && jsTruthy newPath then
        let expected := String.intercalate "/"
          (((jsSplitSlash (newPath.getD "")).dropLast) ++ [oldName])
        if f.path = some expected then
          { f with name := renameName, path := jsOrS newPath f.path,
                   handle := (newHandle).orElse (fun _ => f.handle) }
        else f
      else
        { f with name := renameName, path := jsOrS newPath f.path,
                 handle := (newHandle).orElse (fun _ => f.handle) }
    else f)

/-- `confirmRename`: a blank or unchanged name is a no-op; otherwise
rename the entry in the store (native move or fallback), re-fetch the
new handle, recompute the new path from the root, and rebind matching
open documents; a directory rename only touches the store.  A thrown
error yields a "Rename failed" toast.  Result: `(store, documents,
toast)`. -/
def confirmRename (hasNativeMove : Bool) (fs : Fs) (docs : List EditorFile)
    (parent : FPath) (oldName : String) (kind : EntryKind) (renameName : String) :
    Fs × List EditorFile × Option String :=
  if renameName = "" || renameName = oldName then (fs, docs, none)
  else
    match kind with
    | .file =>
      match renameEntry hasNativeMove fs parent oldName renameName .file with
      | .error _ => (fs, docs, some "Rename failed")
      | .ok fs1 =>
        let newHandle : Option FPath :=
          match getFileHandle fs1 parent renameName with
          | .ok h => some h
          | .error _ => none
        let newPath : Option String :=
          if parent = [] then some renameName
          else if decide (parent ∈ fs1.dirs) then
            some (String.intercalate "/" (parent ++ [renameName]))
          else none
        (fs1, confirmRenameDocs docs oldName renameName newPath newHandle,
         some "Renamed successfully")
    | .dir =>
      match renameEntry hasNativeMove fs parent oldName renameName .dir with
      | .error _ => (fs, docs, some "Rename failed")
      | .ok fs1 => (fs1, docs, some "Renamed successfully")

/-! ## Lemma toolkit -/

theorem eraseKey_cons_self (k : FPath) (b : String) (l : List (FPath × String)) :
    eraseKey ((k, b) :: l) k = eraseKey l k := by
  simp [eraseKey, List.filter]

theorem eraseKey_idem (l : List (FPath × String)) (k : FPath) :
    eraseKey (eraseKey l k) k = eraseKey l k := by
  induction l with
  | nil => rfl
  | cons e t ih =>
    by_cases h : e.1 = k <;> simp_all [eraseKey, List.filter]

theorem setFile_setFile (fs : Fs) (k : FPath) (b c : String) :
    (fs.setFile k b).setFile k c = fs.setFile k c := by
  simp [Fs.setFile, eraseKey_cons_self, eraseKey_idem]

theorem fileAt_setFile_self (fs : Fs) (k : FPath) (c : String) :
    (fs.setFile k c).fileAt k = true := by
  simp [Fs.fileAt, lookupFile_setFile]

theorem fileAt_setFile_other (fs : Fs) (k q : FPath) (c : String) (h : q ≠ k) :
    (fs.setFile k c).fileAt q = fs.fileAt q := by
  simp [Fs.fileAt, lookupFile_setFile, h]

theorem dirAt_setFile (fs : Fs) (k : FPath) (c : String) (q : FPath) :
    (fs.setFile k c).dirAt q = fs.dirAt q := rfl

/-- The final state of a file-level `removeEntry`. -/
def Fs.eraseFile (fs : Fs) (p : FPath) : Fs :=
  ⟨eraseKey fs.files p, fs.dirs⟩

theorem lookupFile_eraseFile (fs : Fs) (p q : FPath) :
    (fs.eraseFile p).lookupFile q = if q = p then none else fs.lookupFile q := by
  simp [Fs.eraseFile, Fs.lookupFile, alookup_eraseKey]

theorem key_ne_of_last_ne {p : FPath} {a b : String} (h : a ≠ b) :
    p ++ [a] ≠ p ++ [b] := by
  intro hc
  exact h (by simpa using List.append_cancel_left hc)

theorem getFileHandle_ok (fs : Fs) (dir : FPath) (name : String)
    (hd : fs.dirAt dir = true) (hf : fs.fileAt (dir ++ [name]) = true) :
    getFileHandle fs dir name = .ok (dir ++ [name]) := by
  simp [getFileHandle, hd, hf]

theorem readFileH_ok (fs : Fs) (p : FPath) (c : String)
    (h : fs.lookupFile p = some c) : readFileH fs p = .ok c := by
  simp [readFileH, h]

theorem getFileHandleCreate_ok (fs : Fs) (dir : FPath) (name : String)
    (hd : fs.dirAt dir = true) (hnd : fs.dirAt (dir ++ [name]) = false) :
    getFileHandleCreate fs dir name =
      .ok (fs.setFile (dir ++ [name]) ((fs.lookupFile (dir ++ [name])).getD ""),
           dir ++ [name]) := by
  simp [getFileHandleCreate, hd, hnd]

theorem writeFileH_ok (fs : Fs) (h : FPath) (c : String)
    (hf : fs.fileAt h = true) : writeFileH fs h c = .ok (fs.setFile h c) := by
  simp [writeFileH, hf]

theorem removeEntry_file_ok (fs : Fs) (dir : FPath) (name : String) (recursive : Bool)
    (hf : fs.fileAt (dir ++ [name]) = true) :
    removeEntry fs dir name recursive = .ok (fs.eraseFile (dir ++ [name])) := by
  simp [removeEntry, hf, Fs.eraseFile]

/-- Successful file move: the target file is (re)bound to the source
content and the source key removed; everything else is untouched. -/
theorem moveEntry_file_eq (fs : Fs) (src dst : FPath) (name : String)
    (newName : Option String) (C : String)
    (hsd : fs.dirAt src = true) (hdd : fs.dirAt dst = true)
    (hsf : fs.lookupFile (src ++ [name]) = some C)
    (hnd : fs.dirAt (dst ++ [jsOrName newName name]) = false)
    (hne : src ++ [name] ≠ dst ++ [jsOrName newName name]) :
    moveEntry fs src name dst .file newName =
      .ok ((fs.setFile (dst ++ [jsOrName newName name]) C).eraseFile (src ++ [name])) := by
  have hsf' : fs.fileAt (src ++ [name]) = true := by simp [Fs.fileAt, hsf]
  have h1 := getFileHandle_ok fs src name hsd hsf'
  have h2 := readFileH_ok fs (src ++ [name]) C hsf
  have h3 := getFileHandleCreate_ok fs dst (jsOrName newName name) hdd hnd
  set dkey := dst ++ [jsOrName newName name] with hdkey
  have h4 : writeFileH (fs.setFile dkey ((fs.lookupFile dkey).getD "")) dkey C
      = .ok (fs.setFile dkey C) := by
    rw [writeFileH_ok _ _ _ (fileAt_setFile_self _ _ _), setFile_setFile]
  have h5 : (fs.setFile dkey C).fileAt (src ++ [name]) = true := by
    rw [fileAt_setFile_other _ _ _ _ hne]
    exact hsf'
  have h6 := removeEntry_file_ok (fs.setFile dkey C) src name false h5
  simp only [moveEntry, Bind.bind, Except.bind, h1, h2, h3, h4, h6]

/-- The state of a file `moveEntry` interrupted after the target write
and before the source removal: the same first three steps (snapshot the
source, get-or-create the target, write), with the final
`sourceDir.removeEntry(name)` never reached. -/
def moveEntryFileInterrupted (fs : Fs) (srcDir : FPath) (name : String)
    (dstDir : FPath) (newName : Option String) : Except FsError Fs := do
  let srcH ← getFileHandle fs srcDir name
  let content ← readFileH fs srcH
  let r ← getFileHandleCreate fs dstDir (jsOrName newName name)
  writeFileH r.1 r.2 content

theorem moveEntryFileInterrupted_eq (fs : Fs) (src dst : FPath) (name : String)
    (newName : Option String) (C : String)
    (hsd : fs.dirAt src = true) (hdd : fs.dirAt dst = true)
    (hsf : fs.lookupFile (src ++ [name]) = some C)
    (hnd : fs.dirAt (dst ++ [jsOrName newName name]) = false) :
    moveEntryFileInterrupted fs src name dst newName =
      .ok (fs.setFile (dst ++ [jsOrName newName name]) C) := by
  have hsf' : fs.fileAt (src ++ [name]) = true := by simp [Fs.fileAt, hsf]
  have h1 := getFileHandle_ok fs src name hsd hsf'
  have h2 := readFileH_ok fs (src ++ [name]) C hsf
  have h3 := getFileHandleCreate_ok fs dst (jsOrName newName name) hdd hnd
  set dkey := dst ++ [jsOrName newName name] with hdkey
  have h4 : writeFileH (fs.setFile dkey ((fs.lookupFile dkey).getD "")) dkey C
      = .ok (fs.setFile dkey C) := by
    rw [writeFileH_ok _ _ _ (fileAt_setFile_self _ _ _), setFile_setFile]
  simp only [moveEntryFileInterrupted, Bind.bind, Except.bind, h1, h2, h3, h4]

theorem key_ne_of_dir_ne {p q : FPath} (n : String) (h : p ≠ q) :
    p ++ [n] ≠ q ++ [n] := by
  intro hc
  exact h (List.append_cancel_right hc)

/-- C3: for every file `f` with content `C`, `moveEntry` reads the
source, creates the target, writes the content and removes the source,
so that afterwards `dst/f` holds `C`, `src/f` is gone and no other file
changed; and re-invoking the same move from the state interrupted
between the write and the removal converges to that same final state. -/
theorem claim3_move_conservation (fs : Fs) (src dst : FPath) (name C : String)
    (hsd : fs.dirAt src = true) (hdd : fs.dirAt dst = true)
    (hsf : fs.lookupFile (src ++ [name]) = some C)
    (hnd : fs.dirAt (dst ++ [name]) = false)
    (hne : src ≠ dst) :
    ∃ fs', moveEntry fs src name dst .file none = .ok fs' ∧
      fs'.lookupFile (dst ++ [name]) = some C ∧
      fs'.lookupFile (src ++ [name]) = none ∧
      (∀ p : FPath, p ≠ src ++ [name] → p ≠ dst ++ [name] →
        fs'.lookupFile p = fs.lookupFile p) ∧
      fs'.dirs = fs.dirs ∧
      (∀ fsMid, moveEntryFileInterrupted fs src name dst none = .ok fsMid →
        moveEntry fsMid src name dst .file none = .ok fs') := by
  have hkey : src ++ [name] ≠ dst ++ [name] := key_ne_of_dir_ne name hne
  have hj : jsOrName none name = name := rfl
  refine ⟨(fs.setFile (dst ++ [name]) C).eraseFile (src ++ [name]), ?_, ?_, ?_, ?_, ?_, ?_⟩
  · have := moveEntry_file_eq fs src dst name none C hsd hdd hsf (by rwa [hj]) (by rwa [hj])
    rwa [hj] at this
  · rw [lookupFile_eraseFile, if_neg (Ne.symm hkey), lookupFile_setFile, if_pos rfl]
  · rw [lookupFile_eraseFile, if_pos rfl]
  · intro p hp1 hp2
    rw [lookupFile_eraseFile, if_neg hp1, lookupFile_setFile, if_neg hp2]
  · rfl
  · intro fsMid hmid
    have hmid' := moveEntryFileInterrupted_eq fs src dst name none C hsd hdd hsf
      (by rwa [hj])
    rw [hmid'] at hmid
    injection hmid with hmid
    subst hmid
    rw [hj]
    set dkey := dst ++ [name] with hdkey
    have hsd2 : (fs.setFile dkey C).dirAt src = true := by rwa [dirAt_setFile]
    have hdd2 : (fs.setFile dkey C).dirAt dst = true := by rwa [dirAt_setFile]
    have hsf2 : (fs.setFile dkey C).lookupFile (src ++ [name]) = some C := by
      rw [lookupFile_setFile, if_neg hkey]; exact hsf
    have hnd2 : (fs.setFile dkey C).dirAt (dst ++ [name]) = false := by
      rwa [dirAt_setFile]
    have := moveEntry_file_eq (fs.setFile dkey C) src dst name none C hsd2 hdd2 hsf2
      (by rwa [hj]) (by rwa [hj])
    rw [hj] at this
    rw [this, setFile_setFile]

/-- A concrete instance of `claim3_move_conservation`: moving
`s/f.md` (content `"C"`) to `d` leaves `d/f.md = "C"`, removes
`s/f.md`, and the re-invocation after an interruption agrees. -/
theorem claim3_witness :
    ∃ fs', moveEntry ⟨[(["s", "f.md"], "C")], [["s"], ["d"]]⟩ ["s"] "f.md" ["d"]
        .file none = .ok fs' ∧
      fs'.lookupFile (["d"] ++ ["f.md"]) = some "C" ∧
      fs'.lookupFile (["s"] ++ ["f.md"]) = none ∧
      (∀ p : FPath, p ≠ ["s"] ++ ["f.md"] → p ≠ ["d"] ++ ["f.md"] →
        fs'.lookupFile p = Fs.lookupFile ⟨[(["s", "f.md"], "C")], [["s"], ["d"]]⟩ p) ∧
      fs'.dirs = [["s"], ["d"]] ∧
      (∀ fsMid, moveEntryFileInterrupted ⟨[(["s", "f.md"], "C")], [["s"], ["d"]]⟩
          ["s"] "f.md" ["d"] none = .ok fsMid →
        moveEntry fsMid ["s"] "f.md" ["d"] .file none = .ok fs') :=
  claim3_move_conservation ⟨[(["s", "f.md"], "C")], [["s"], ["d"]]⟩ ["s"] ["d"]
    "f.md" "C" (by rfl) (by rfl) (by rfl) (by rfl) (by decide)

/-- C1 (counterexample): with `a.md = "A"` and `b.md = "B"` in the same
directory, renaming `a.md` to `b.md` does **not** fail: the fallback
succeeds, overwrites `b.md` with `"A"`, removes `a.md`, and
`confirmRename` then rebinds the open document's name and path — so the
claimed `NameCollision` rejection does not exist in the code. -/
theorem claim1_counterexample :
    renameEntry false ⟨[(["a.md"], "A"), (["b.md"], "B")], []⟩ [] "a.md" "b.md" .file
        = .ok ⟨[(["b.md"], "A")], []⟩ ∧
    confirmRename false ⟨[(["a.md"], "A"), (["b.md"], "B")], []⟩
        [⟨7, "a.md", some "a.md", some ["a.md"], "A", false, none⟩] [] "a.md" .file "b.md"
      = (⟨[(["b.md"], "A")], []⟩,
         [⟨7, "b.md", some "b.md", some ["b.md"], "A", false, none⟩],
         some "Renamed successfully") :=
  ⟨rfl, by decide⟩

/-- C1 (amended): renaming `a` onto an existing sibling file `b` via the
copy-then-delete fallback **succeeds** (no collision error of any kind):
the target is silently overwritten with the source's content and the
source removed. -/
theorem claim1_rename_overwrites (fs : Fs) (parent : FPath) (a b A B : String)
    (hab : a ≠ b) (hb : b ≠ "")
    (hd : fs.dirAt parent = true)
    (hfa : fs.lookupFile (parent ++ [a]) = some A)
    (_hfb : fs.lookupFile (parent ++ [b]) = some B)
    (hnd : fs.dirAt (parent ++ [b]) = false) :
    renameEntry false fs parent a b .file =
      .ok ((fs.setFile (parent ++ [b]) A).eraseFile (parent ++ [a])) ∧
    ((fs.setFile (parent ++ [b]) A).eraseFile (parent ++ [a])).lookupFile
        (parent ++ [b]) = some A ∧
    ((fs.setFile (parent ++ [b]) A).eraseFile (parent ++ [a])).lookupFile
        (parent ++ [a]) = none := by
  have hj : jsOrName (some b) a = b := by simp [jsOrName, hb]
  have hkey : parent ++ [a] ≠ parent ++ [b] := key_ne_of_last_ne hab
  have hfa' : fs.fileAt (parent ++ [a]) = true := by simp [Fs.fileAt, hfa]
  have h1 := getFileHandle_ok fs parent a hd hfa'
  have h2 := moveEntry_file_eq fs parent parent a (some b) A hd hd hfa
    (by rwa [hj]) (by rwa [hj])
  rw [hj] at h2
  refine ⟨?_, ?_, ?_⟩
  · simp only [renameEntry, Bind.bind, Except.bind, h1, Bool.false_eq_true,
      if_false, h2]
  · rw [lookupFile_eraseFile, if_neg (Ne.symm hkey), lookupFile_setFile, if_pos rfl]
  · rw [lookupFile_eraseFile, if_pos rfl]

/-- A concrete instance of `claim1_rename_overwrites`. -/
theorem claim1_witness :
    renameEntry false ⟨[(["d", "a.md"], "A"), (["d", "b.md"], "B")], [["d"]]⟩
        ["d"] "a.md" "b.md" .file =
      .ok ((Fs.setFile ⟨[(["d", "a.md"], "A"), (["d", "b.md"], "B")], [["d"]]⟩
              (["d"] ++ ["b.md"]) "A").eraseFile (["d"] ++ ["a.md"])) ∧
    ((Fs.setFile ⟨[(["d", "a.md"], "A"), (["d", "b.md"], "B")], [["d"]]⟩
        (["d"] ++ ["b.md"]) "A").eraseFile (["d"] ++ ["a.md"])).lookupFile
        (["d"] ++ ["b.md"]) = some "A" ∧
    ((Fs.setFile ⟨[(["d", "a.md"], "A"), (["d", "b.md"], "B")], [["d"]]⟩
        (["d"] ++ ["b.md"]) "A").eraseFile (["d"] ++ ["a.md"])).lookupFile
        (["d"] ++ ["a.md"]) = none :=
  claim1_rename_overwrites ⟨[(["d", "a.md"], "A"), (["d", "b.md"], "B")], [["d"]]⟩
    ["d"] "a.md" "b.md" "A" "B" (by decide) (by decide) (by rfl) (by rfl) (by rfl)
    (by rfl)

/-- C6: `listFiles` returns a permutation of the (unordered) enumeration
in which directories come before files and, within one kind, names are
in ascending lexicographic order; in particular a directory holding
file `b.md`, directory `A` and file `a.md` lists as
`[A, a.md, b.md]`.  (The model is a pure function, so the ordering is
deterministic by construction.) -/
theorem claim6_listing_order :
    (∀ (fs : Fs) (dir : FPath) (l : List Entry), listFiles fs dir = .ok l →
      l.Perm (entriesOf fs dir) ∧
      l.Pairwise (fun a b =>
        (b.kind = EntryKind.dir → a.kind = EntryKind.dir) ∧
        (a.kind = b.kind → nameLE a.name b.name = true))) ∧
    listFiles ⟨[(["b.md"], "B"), (["a.md"], "A")], [["A"]]⟩ [] =
      .ok [⟨"A", .dir⟩, ⟨"a.md", .file⟩, ⟨"b.md", .file⟩] := by
  constructor
  · intro fs dir l hl
    have hok : fs.dirAt dir = true ∧ l = sortEntries (entriesOf fs dir) := by
      by_cases hd : fs.dirAt dir = true
      · refine ⟨hd, ?_⟩
        simp only [listFiles, hd, if_true] at hl
        injection hl with h
        exact h.symm
      · simp [listFiles, hd] at hl
    rcases hok with ⟨_, rfl⟩
    refine ⟨sortEntries_perm _, ?_⟩
    refine (sortEntries_pairwise (entriesOf fs dir)).imp ?_
    intro a b hab
    constructor
    · intro hbk
      rcases a with ⟨an, ak⟩; rcases b with ⟨bn, bk⟩
      cases ak <;> cases bk <;> simp_all [entryLE]
    · intro hk
      rcases a with ⟨an, ak⟩; rcases b with ⟨bn, bk⟩
      cases ak <;> cases bk <;> simp_all [entryLE]
  · rfl

/-- A concrete instance of `claim6_listing_order`. -/
theorem claim6_witness :
    ([⟨"A", .dir⟩, ⟨"a.md", .file⟩, ⟨"b.md", .file⟩] : List Entry).Perm
        (entriesOf ⟨[(["b.md"], "B"), (["a.md"], "A")], [["A"]]⟩ []) ∧
    ([⟨"A", .dir⟩, ⟨"a.md", .file⟩, ⟨"b.md", .file⟩] : List Entry).Pairwise
        (fun a b =>
          (b.kind = EntryKind.dir → a.kind = EntryKind.dir) ∧
          (a.kind = b.kind → nameLE a.name b.name = true)) :=
  claim6_listing_order.1 ⟨[(["b.md"], "B"), (["a.md"], "A")], [["A"]]⟩ []
    [⟨"A", .dir⟩, ⟨"a.md", .file⟩, ⟨"b.md", .file⟩] (by rfl)

/-- C10: while the recycle-bin view is inactive, the refreshed listing
contains no entry whose name starts with a dot — in particular never
the reserved `.trash` container — and the trash contents are listed
(only) when the recycle-bin view is active. -/
theorem claim10_dotfiles_hidden :
    (∀ (fs : Fs) (e : Entry), e ∈ refreshProjectFiles fs false →
      jsStartsWith e.name "." = false ∧ e.name ≠ TRASH_DIR_NAME) ∧
    (∀ fs : Fs, [TRASH_DIR_NAME] ∈ fs.dirs →
      refreshProjectFiles fs true = sortEntries (entriesOf fs [TRASH_DIR_NAME])) := by
  constructor
  · intro fs e he
    have hroot : fs.dirAt [] = true := by simp [Fs.dirAt]
    simp only [refreshProjectFiles, if_neg (by simp : ¬ (false = true)), listFiles,
      hroot, if_true] at he
    have hf := (List.mem_filter.mp he).2
    have hs : jsStartsWith e.name "." = false := by
      cases h : jsStartsWith e.name "." with
      | false => rfl
      | true => rw [h] at hf; simp at hf
    refine ⟨hs, ?_⟩
    intro hname
    rw [hname] at hs
    exact absurd hs (by decide)
  · intro fs htr
    have hroot : fs.dirAt [] = true := by simp [Fs.dirAt]
    have h1 : getDirectoryHandle fs [] TRASH_DIR_NAME = .ok [TRASH_DIR_NAME] := by
      simp [getDirectoryHandle, hroot, htr]
    have h2 : fs.dirAt [TRASH_DIR_NAME] = true := by simp [Fs.dirAt, htr]
    simp [refreshProjectFiles, h1, listFiles, h2]

/-- A concrete instance of `claim10_dotfiles_hidden`. -/
theorem claim10_witness :
    (jsStartsWith (Entry.mk "a.md" .file).name "." = false ∧
      (Entry.mk "a.md" .file).name ≠ TRASH_DIR_NAME) ∧
    refreshProjectFiles ⟨[([".trash", "x.md"], "X"), (["a.md"], "A")], [[".trash"]]⟩
        true =
      sortEntries (entriesOf ⟨[([".trash", "x.md"], "X"), (["a.md"], "A")], [[".trash"]]⟩
        [TRASH_DIR_NAME]) :=
  ⟨claim10_dotfiles_hidden.1 ⟨[([".hidden"], "h"), (["a.md"], "A")], [[".trash"]]⟩
      ⟨"a.md", .file⟩ (by decide),
   claim10_dotfiles_hidden.2 ⟨[([".trash", "x.md"], "X"), (["a.md"], "A")], [[".trash"]]⟩
      (by decide)⟩

theorem savedFiles_proj (files : List EditorFile) :
    ((files.map (fun f => SavedFile.mk f.name f.path f.cursorPosition)).filter
        (fun s => jsTruthy s.path)) =
      (files.filter (fun f => jsTruthy f.path)).map
        (fun f => SavedFile.mk f.name f.path f.cursorPosition) := by
  induction files with
  | nil => rfl
  | cons f t ih =>
    simp only [List.map_cons, List.filter_cons]
    cases h : jsTruthy f.path <;> simp [h, ih]

/-- C8: with a root open and restore not in progress, the persisted
Saved Session is exactly the path-only `{name, path, cursor}` projection
of the open documents (documents without a truthy path — virtual, never
saved — are dropped), together with the active document's path, stored
under the per-root key `mdpro_workspace_<rootName>`; the separate global
record holds only `{sidebarVisible, viewMode, theme}`.  The projected
record types contain no handle and no content field at all. -/
theorem claim8_saved_session (rn : String) (files : List EditorFile)
    (activeFileId : Option Nat) (sv : Bool) (vm : ViewMode) (th : Theme) :
    saveWorkspaceState (some rn) false files activeFileId sv vm th =
      some (("mdpro_workspace_" ++ rn,
        { openFiles := (files.filter (fun f => jsTruthy f.path)).map
            (fun f => SavedFile.mk f.name f.path f.cursorPosition),
          activeFilePath := (files.find? (fun f => activeFileId = some f.id)).bind
            (fun f => f.path) }),
        ⟨sv, vm, th⟩) := by
  simp [saveWorkspaceState, savedFiles_proj]

/-- C9: the debounced auto-save timer clears a document's dirty flag
only when the write through its handle succeeded; a failed (or
impossible) write leaves the store and every document — in particular
the dirty flag — untouched, surfacing nothing but a console warning. -/
theorem claim9_autosave_failure_keeps_dirty (fs : Fs) (files : List EditorFile)
    (cid : Nat) (c : String) (f0 : EditorFile)
    (hfind : files.find? (fun f => f.id = cid) = some f0) :
    (f0.handle = none → autoSaveFlush fs files cid c = (fs, files)) ∧
    (∀ (h : FPath) (e : FsError), f0.handle = some h → saveFile fs h c = .error e →
      autoSaveFlush fs files cid c = (fs, files)) ∧
    (∀ (h : FPath) (fs1 : Fs), f0.handle = some h → saveFile fs h c = .ok fs1 →
      autoSaveFlush fs files cid c = (fs1, markClean files cid)) := by
  refine ⟨?_, ?_, ?_⟩
  · intro hh
    simp [autoSaveFlush, hfind, hh]
  · intro h e hh hw
    simp [autoSaveFlush, hfind, hh, hw]
  · intro h fs1 hh hw
    simp [autoSaveFlush, hfind, hh, hw]

/-- A concrete instance of `claim9_autosave_failure_keeps_dirty`: the
document's handle points at a deleted file, the write fails, and the
document stays dirty. -/
theorem claim9_witness :
    autoSaveFlush ⟨[], []⟩
        [⟨0, "a.md", some "a.md", some ["a.md"], "old", true, none⟩] 0 "new" =
      (⟨[], []⟩, [⟨0, "a.md", some "a.md", some ["a.md"], "old", true, none⟩]) :=
  (claim9_autosave_failure_keeps_dirty ⟨[], []⟩
      [⟨0, "a.md", some "a.md", some ["a.md"], "old", true, none⟩] 0 "new"
      ⟨0, "a.md", some "a.md", some ["a.md"], "old", true, none⟩ (by rfl)).2.1
    ["a.md"] .notFound (by rfl) (by rfl)

theorem getFileHandleFromPath_some {fs : Fs} {path : String} {h : FPath}
    (hres : getFileHandleFromPath fs path = some h) : fs.fileAt h = true := by
  simp only [getFileHandleFromPath] at hres
  split_ifs at hres with h1 h2 h3
  cases hres
  exact h3

/-- C2 (counterexample): (i) a Bound document (`path: "gone.md"`, no
handle) whose path no longer resolves is marked clean with a
"Saved (Browser Storage)" toast and nothing is written — no
`StaleReference`-like failure exists; (ii) a document with a present
but stale handle is *not* re-resolved even though its path would
resolve: the write through the dead handle fails and only a
"Save failed" toast results. -/
theorem claim2_counterexample :
    handleSave true ⟨[], []⟩ [⟨0, "gone.md", some "gone.md", none, "x", true, none⟩]
        (some 0) =
      (⟨[], []⟩, [⟨0, "gone.md", some "gone.md", none, "x", false, none⟩],
       some "Saved (Browser Storage)") ∧
    handleSave true ⟨[(["real.md"], "disk")], []⟩
        [⟨0, "real.md", some "real.md", some ["gone.md"], "new", true, none⟩]
        (some 0) =
      (⟨[(["real.md"], "disk")], []⟩,
       [⟨0, "real.md", some "real.md", some ["gone.md"], "new", true, none⟩],
       some "Save failed") :=
  ⟨by decide, by decide⟩

/-- C2 (amended): `handleSave` re-resolves from the root only when the
cached handle is *absent* (and the document has a truthy path): on a
successful re-resolve the fresh handle is cached and the content
written; when the re-resolve fails the document is marked clean without
any write and a "Saved (Browser Storage)" toast is shown (no
`StaleReference` error exists); a *present* stale handle is written
through directly and the failure surfaces as a "Save failed" toast
with the dirty flag kept. -/
theorem claim2_save_reresolve (fs : Fs) (files : List EditorFile)
    (activeFileId : Option Nat) (i : Nat) (current : EditorFile)
    (haf : activeFileId = some i)
    (hfind : files.find? (fun f => f.id = i) = some current)
    (himg : isImageFile current.name = false) :
    ((∀ h : FPath, current.handle = none → jsTruthy current.path = true →
      getFileHandleFromPath fs ((current.path).getD "") = some h →
      handleSave true fs files activeFileId =
        (fs.setFile h current.content,
         markClean (files.map (fun f =>
           if f.id = current.id then { f with handle := some h } else f)) current.id,
         some "Saved to disk")) ∧
    (current.handle = none → jsTruthy current.path = true →
      getFileHandleFromPath fs ((current.path).getD "") = none →
      handleSave true fs files activeFileId =
        (fs, markClean files current.id, some "Saved (Browser Storage)")) ∧
    (∀ h : FPath, current.handle = some h → fs.fileAt h = false →
      handleSave true fs files activeFileId = (fs, files, some "Save failed"))) := by
  refine ⟨?_, ?_, ?_⟩
  · intro h hh hp hres
    have hfa : fs.fileAt h = true := getFileHandleFromPath_some hres
    have hw : saveFile fs h current.content = .ok (fs.setFile h current.content) :=
      writeFileH_ok fs h current.content hfa
    simp [handleSave, haf, hfind, himg, hh, hp, hres, hw]
  · intro hh hp hres
    simp [handleSave, haf, hfind, himg, hh, hp, hres]
  · intro h hh hw
    have hwf : saveFile fs h current.content = .error .notFound := by
      simp [saveFile, writeFileH, hw]
    simp [handleSave, haf, hfind, himg, hh, hwf]

/-- A concrete instance of `claim2_save_reresolve`: an absent handle
with a resolvable path leads to a real write and a cached handle. -/
theorem claim2_witness :
    handleSave true ⟨[(["n.md"], "old")], []⟩
        [⟨0, "n.md", some "n.md", none, "new", true, none⟩] (some 0) =
      ((Fs.setFile ⟨[(["n.md"], "old")], []⟩ ["n.md"] "new"),
       markClean ([⟨0, "n.md", some "n.md", none, "new", true, none⟩].map (fun f =>
         if f.id = (EditorFile.mk 0 "n.md" (some "n.md") none "new" true none).id
         then { f with handle := some ["n.md"] } else f))
         (EditorFile.mk 0 "n.md" (some "n.md") none "new" true none).id,
       some "Saved to disk") :=
  (claim2_save_reresolve ⟨[(["n.md"], "old")], []⟩
      [⟨0, "n.md", some "n.md", none, "new", true, none⟩] (some 0) 0
      ⟨0, "n.md", some "n.md", none, "new", true, none⟩ rfl (by rfl) (by rfl)).1
    ["n.md"] rfl (by rfl) (by rfl)

theorem mem_setDir_dirs (fs : Fs) (q p : FPath) :
    p ∈ (fs.setDir q).dirs ↔ p = q ∨ p ∈ fs.dirs := by
  simp only [Fs.setDir, List.mem_cons, List.mem_filter, decide_eq_true_eq]
  constructor
  · rintro (h | ⟨h1, _⟩)
    · exact Or.inl h
    · exact Or.inr h1
  · rintro (h | h)
    · exact Or.inl h
    · by_cases hq : p = q
      · exact Or.inl hq
      · exact Or.inr ⟨h, hq⟩

theorem dirs_eraseFile (fs : Fs) (p : FPath) : (fs.eraseFile p).dirs = fs.dirs := rfl

/-- The soft-delete / restore round trip, stated from any store whose
trash container already exists. -/
theorem trashRoundTrip (fs1 : Fs) (name C : String)
    (hf : fs1.lookupFile [name] = some C)
    (htr : [TRASH_DIR_NAME] ∈ fs1.dirs)
    (hnd1 : [TRASH_DIR_NAME, name] ∉ fs1.dirs)
    (hnd2 : [name] ∉ fs1.dirs) :
    ∃ fs2 fs3,
      moveEntry fs1 [] name [TRASH_DIR_NAME] .file none = .ok fs2 ∧
      handleRestoreFile fs2 true name = (fs3, some "File Restored") ∧
      fs3.lookupFile [name] = some C ∧
      fs3.lookupFile [TRASH_DIR_NAME, name] = none ∧
      (∀ p : FPath, p ≠ [name] → p ≠ [TRASH_DIR_NAME, name] →
        fs3.lookupFile p = fs1.lookupFile p) := by
  have hne1 : ([name] : FPath) ≠ [TRASH_DIR_NAME, name] := by simp
  have hdd : fs1.dirAt [TRASH_DIR_NAME] = true := by simp [Fs.dirAt, htr]
  have hndb : fs1.dirAt [TRASH_DIR_NAME, name] = false := by simp [Fs.dirAt, hnd1]
  have h1 := moveEntry_file_eq fs1 [] [TRASH_DIR_NAME] name none C (by rfl) hdd hf
    hndb hne1
  set fs2 := (fs1.setFile [TRASH_DIR_NAME, name] C).eraseFile [name] with hfs2
  have hdirs2 : fs2.dirs = fs1.dirs := rfl
  have hl2t : fs2.lookupFile [TRASH_DIR_NAME, name] = some C := by
    rw [hfs2, lookupFile_eraseFile, if_neg (Ne.symm hne1), lookupFile_setFile,
      if_pos rfl]
  have hl2n : fs2.lookupFile [name] = none := by
    rw [hfs2, lookupFile_eraseFile, if_pos rfl]
  have hg : getDirectoryHandle fs2 [] TRASH_DIR_NAME = .ok [TRASH_DIR_NAME] := by
    have : fs2.dirAt [] = true := by simp [Fs.dirAt]
    simp [getDirectoryHandle, this, hdirs2, htr]
  have hgf : getFileHandle fs2 [TRASH_DIR_NAME] name = .ok [TRASH_DIR_NAME, name] := by
    have hd2 : fs2.dirAt [TRASH_DIR_NAME] = true := by simp [Fs.dirAt, hdirs2, htr]
    have hfa : fs2.fileAt ([TRASH_DIR_NAME] ++ [name]) = true := by
      simp [Fs.fileAt, hl2t]
    exact getFileHandle_ok fs2 [TRASH_DIR_NAME] name hd2 hfa
  have hndb2 : fs2.dirAt [name] = false := by
    simp [Fs.dirAt, hdirs2, hnd2]
  have hsf2 : fs2.lookupFile ([TRASH_DIR_NAME] ++ [name]) = some C := by
    simpa using hl2t
  have h2 := moveEntry_file_eq fs2 [TRASH_DIR_NAME] [] name none C
    (by simp [Fs.dirAt, hdirs2, htr]) (by simp [Fs.dirAt]) hsf2 hndb2 hne1.symm
  set fs3 := (fs2.setFile ([] ++ [name]) C).eraseFile ([TRASH_DIR_NAME] ++ [name])
    with hfs3
  refine ⟨fs2, fs3, h1, ?_, ?_, ?_, ?_⟩
  · simp only [handleRestoreFile, hg, hgf]
    rw [h2]
    simp [hfs3, jsOrName]
  · rw [hfs3, lookupFile_eraseFile]
    simp only [List.nil_append]
    rw [if_neg (show ¬ ([name] : FPath) = [TRASH_DIR_NAME] ++ [name] by simp),
      lookupFile_setFile]
    simp
  · rw [hfs3, lookupFile_eraseFile]
    simp
  · intro p hp1 hp2
    rw [hfs3, lookupFile_eraseFile, if_neg (by simpa using hp2), lookupFile_setFile,
      if_neg (by simpa using hp1), hfs2, lookupFile_eraseFile, if_neg hp1,
      lookupFile_setFile, if_neg hp2]

/-- C7: soft-deleting a root-level file `x.md` moves it into the
`.trash` container (created on demand), and restoring it from the
recycle-bin view infers the kind by a file resolve and moves it back:
the file returns to the root with identical content, no residue stays
in the trash container, and no other file is affected. -/
theorem claim7_softdelete_restore (fs : Fs) (name C : String)
    (hf : fs.lookupFile [name] = some C)
    (hnf : fs.fileAt [TRASH_DIR_NAME] = false)
    (hnd1 : [TRASH_DIR_NAME, name] ∉ fs.dirs)
    (hnd2 : [name] ∉ fs.dirs)
    (hname : name ≠ TRASH_DIR_NAME) :
    ∃ fs2 fs3,
      confirmDelete fs false [] name .file = (fs2, "Moved to Recycle Bin") ∧
      handleRestoreFile fs2 true name = (fs3, some "File Restored") ∧
      fs3.lookupFile [name] = some C ∧
      fs3.lookupFile [TRASH_DIR_NAME, name] = none ∧
      (∀ p : FPath, p ≠ [name] → p ≠ [TRASH_DIR_NAME, name] →
        fs3.lookupFile p = fs.lookupFile p) := by
  have hroot : fs.dirAt [] = true := by simp [Fs.dirAt]
  by_cases ht : [TRASH_DIR_NAME] ∈ fs.dirs
  · have hcr : getDirectoryHandleCreate fs [] TRASH_DIR_NAME = .ok (fs, [TRASH_DIR_NAME]) := by
      simp [getDirectoryHandleCreate, hroot, ht]
    rcases trashRoundTrip fs name C hf ht hnd1 hnd2 with ⟨fs2, fs3, hm, hr, p1, p2, p3⟩
    refine ⟨fs2, fs3, ?_, hr, p1, p2, p3⟩
    simp only [confirmDelete, Bool.false_eq_true, if_false, hcr]
    rw [hm]
  · have hcr : getDirectoryHandleCreate fs [] TRASH_DIR_NAME =
        .ok (fs.setDir [TRASH_DIR_NAME], [TRASH_DIR_NAME]) := by
      simp [getDirectoryHandleCreate, hroot, ht, Fs.fileAt] at *
      simp [getDirectoryHandleCreate, hroot, ht, hnf]
    have hf1 : (fs.setDir [TRASH_DIR_NAME]).lookupFile [name] = some C := hf
    have htr1 : [TRASH_DIR_NAME] ∈ (fs.setDir [TRASH_DIR_NAME]).dirs := by
      rw [mem_setDir_dirs]; exact Or.inl rfl
    have hnd1' : [TRASH_DIR_NAME, name] ∉ (fs.setDir [TRASH_DIR_NAME]).dirs := by
      rw [mem_setDir_dirs]
      rintro (h | h)
      · exact absurd h (by simp)
      · exact hnd1 h
    have hnd2' : [name] ∉ (fs.setDir [TRASH_DIR_NAME]).dirs := by
      rw [mem_setDir_dirs]
      rintro (h | h)
      · exact hname (by simpa using h)
      · exact hnd2 h
    rcases trashRoundTrip (fs.setDir [TRASH_DIR_NAME]) name C hf1 htr1 hnd1' hnd2'
      with ⟨fs2, fs3, hm, hr, p1, p2, p3⟩
    refine ⟨fs2, fs3, ?_, hr, p1, p2, fun p hp1 hp2 => (p3 p hp1 hp2).trans rfl⟩
    simp only [confirmDelete, Bool.false_eq_true, if_false, hcr]
    rw [hm]

/-- A concrete instance of `claim7_softdelete_restore`. -/
theorem claim7_witness :
    ∃ fs2 fs3,
      confirmDelete ⟨[(["x.md"], "X"), (["keep.md"], "K")], []⟩ false [] "x.md" .file =
        (fs2, "Moved to Recycle Bin") ∧
      handleRestoreFile fs2 true "x.md" = (fs3, some "File Restored") ∧
      fs3.lookupFile ["x.md"] = some "X" ∧
      fs3.lookupFile [TRASH_DIR_NAME, "x.md"] = none ∧
      (∀ p : FPath, p ≠ ["x.md"] → p ≠ [TRASH_DIR_NAME, "x.md"] →
        fs3.lookupFile p =
          Fs.lookupFile ⟨[(["x.md"], "X"), (["keep.md"], "K")], []⟩ p) :=
  claim7_softdelete_restore ⟨[(["x.md"], "X"), (["keep.md"], "K")], []⟩ "x.md" "X"
    (by rfl) (by rfl) (by decide) (by decide) (by decide)

/-! ## Inversion lemmas and entry counting (for rename atomicity) -/

/-- Number of file entries stored under the key `p`. -/
def countKey (l : List (FPath × String)) (p : FPath) : Nat :=
  (l.filter (fun e => decide (e.1 = p))).length

theorem countKey_cons (q : FPath) (c : String) (l : List (FPath × String)) (p : FPath) :
    countKey ((q, c) :: l) p = (if q = p then 1 else 0) + countKey l p := by
  by_cases h : q = p <;> simp [countKey, List.filter_cons, h, Nat.add_comm]

theorem countKey_eraseKey_self (l : List (FPath × String)) (p : FPath) :
    countKey (eraseKey l p) p = 0 := by
  induction l with
  | nil => rfl
  | cons e t ih =>
    rcases e with ⟨q, c⟩
    by_cases h : q = p
    · simpa [eraseKey, List.filter_cons, h] using ih
    · simpa [eraseKey, List.filter_cons, h, countKey_cons] using ih

theorem countKey_eraseKey_other (l : List (FPath × String)) (k p : FPath) (h : p ≠ k) :
    countKey (eraseKey l k) p = countKey l p := by
  induction l with
  | nil => rfl
  | cons e t ih =>
    rcases e with ⟨q, c⟩
    by_cases hq : q = k
    · have hqp : ¬ q = p := fun hc => h (hc ▸ hq)
      rw [show eraseKey ((q, c) :: t) k = eraseKey t k by
        simp [eraseKey, List.filter_cons, hq]]
      rw [ih, countKey_cons, if_neg hqp, Nat.zero_add]
    · rw [show eraseKey ((q, c) :: t) k = (q, c) :: eraseKey t k by
        simp [eraseKey, List.filter_cons, hq]]
      rw [countKey_cons, countKey_cons, ih]

theorem not_mem_dirs_of_dirAt_false {fs : Fs} {p : FPath} (h : fs.dirAt p = false) :
    p ∉ fs.dirs := by
  simp only [Fs.dirAt, Bool.or_eq_false_iff, decide_eq_false_iff_not] at h
  exact h.2

theorem getFileHandle_ok_inv {fs : Fs} {dir : FPath} {name : String} {h : FPath}
    (hok : getFileHandle fs dir name = .ok h) :
    fs.dirAt dir = true ∧ fs.fileAt (dir ++ [name]) = true ∧ h = dir ++ [name] := by
  unfold getFileHandle at hok
  split_ifs at hok with h1 h2 h3
  injection hok with he
  exact ⟨h1, h2, he.symm⟩

theorem getFileHandleCreate_ok_inv {fs : Fs} {dir : FPath} {name : String}
    {pr : Fs × FPath} (hc : getFileHandleCreate fs dir name = .ok pr) :
    fs.dirAt dir = true ∧ fs.dirAt (dir ++ [name]) = false ∧
      pr = (fs.setFile (dir ++ [name]) ((fs.lookupFile (dir ++ [name])).getD ""),
            dir ++ [name]) := by
  unfold getFileHandleCreate at hc
  split_ifs at hc with a1 a2
  injection hc with he
  exact ⟨a1, by simpa using a2, he.symm⟩

theorem moveEntry_file_ok_inv {fs : Fs} {src dst : FPath} {name : String}
    {newName : Option String} {fsr : Fs}
    (hm : moveEntry fs src name dst .file newName = .ok fsr) :
    ∃ C, fs.dirAt src = true ∧ fs.dirAt dst = true ∧
      fs.lookupFile (src ++ [name]) = some C ∧
      fs.dirAt (dst ++ [jsOrName newName name]) = false ∧
      fsr = (fs.setFile (dst ++ [jsOrName newName name]) C).eraseFile (src ++ [name]) := by
  rcases hg : getFileHandle fs src name with e | srcH
  · rw [moveEntry] at hm
    simp only [Bind.bind, Except.bind, hg] at hm
    exact Except.noConfusion hm
  · rcases getFileHandle_ok_inv hg with ⟨hd1, hf1, rfl⟩
    rcases hr : fs.lookupFile (src ++ [name]) with _ | C
    · simp [Fs.fileAt, hr] at hf1
    · rcases hc : getFileHandleCreate fs dst (jsOrName newName name) with e | pr
      · rw [moveEntry] at hm
        simp only [Bind.bind, Except.bind, hg, readFileH, hr, hc] at hm
        exact Except.noConfusion hm
      · rcases getFileHandleCreate_ok_inv hc with ⟨hd2, hnd, rfl⟩
        refine ⟨C, hd1, hd2, rfl, hnd, ?_⟩
        set dkey := dst ++ [jsOrName newName name] with hdk
        have hw : writeFileH (fs.setFile dkey ((fs.lookupFile dkey).getD "")) dkey C
            = .ok (fs.setFile dkey C) := by
          rw [writeFileH_ok _ _ _ (fileAt_setFile_self _ _ _), setFile_setFile]
        have hfile : (fs.setFile dkey C).fileAt (src ++ [name]) = true := by
          by_cases hkk : src ++ [name] = dkey
          · rw [hkk]
            exact fileAt_setFile_self _ _ _
          · rw [fileAt_setFile_other _ _ _ _ hkk]
            simp [Fs.fileAt, hr]
        have hrm := removeEntry_file_ok (fs.setFile dkey C) src name false hfile
        rw [moveEntry] at hm
        simp only [Bind.bind, Except.bind, hg, readFileH, hr, hc, hw, hrm] at hm
        injection hm with he
        exact he.symm

theorem nativeMove_file_ok_inv {fs : Fs} {parent : FPath} {oldName newName : String}
    {fsr : Fs} (hm : nativeMove fs parent oldName newName .file = .ok fsr) :
    ∃ C, fs.dirAt (parent ++ [newName]) = false ∧
      fs.lookupFile (parent ++ [oldName]) = some C ∧
      fsr = ⟨(parent ++ [newName], C) ::
              eraseKey (eraseKey fs.files (parent ++ [oldName])) (parent ++ [newName]),
             fs.dirs⟩ := by
  simp only [nativeMove] at hm
  split_ifs at hm with h1
  rcases hr : fs.lookupFile (parent ++ [oldName]) with _ | C
  · rw [hr] at hm
    exact Except.noConfusion hm
  · rw [hr] at hm
    injection hm with he
    exact ⟨C, by simpa using h1, rfl, he.symm⟩

theorem renameEntry_file_ok_inv {nm : Bool} {fs : Fs} {parent : FPath}
    {oldName newName : String} {fsr : Fs}
    (hm : renameEntry nm fs parent oldName newName .file = .ok fsr) :
    fs.dirAt parent = true ∧ fs.fileAt (parent ++ [oldName]) = true ∧
      ((nm = true ∧ nativeMove fs parent oldName newName .file = .ok fsr) ∨
       (nm = false ∧ moveEntry fs parent oldName parent .file (some newName) = .ok fsr)) := by
  rcases hg : getFileHandle fs parent oldName with e | h
  · rw [renameEntry] at hm
    simp only [Bind.bind, Except.bind, hg] at hm
    exact Except.noConfusion hm
  · rcases getFileHandle_ok_inv hg with ⟨hd1, hf1, rfl⟩
    rw [renameEntry] at hm
    simp only [Bind.bind, Except.bind, hg] at hm
    cases nm with
    | true => exact ⟨hd1, hf1, Or.inl ⟨rfl, by simpa using hm⟩⟩
    | false => exact ⟨hd1, hf1, Or.inr ⟨rfl, by simpa using hm⟩⟩

theorem dirAt_eq_of_dirs_eq {fs1 fs2 : Fs} (h : fs1.dirs = fs2.dirs) (p : FPath) :
    fs1.dirAt p = fs2.dirAt p := by
  simp [Fs.dirAt, h]

theorem confirmRenameDocs_mem (docs : List EditorFile) (oldName newName : String)
    (OP NP : String) (NH : FPath) (f : EditorFile) (hf : f ∈ docs)
    (hname : f.name = oldName) (hpath : f.path = some OP)
    (hOP : OP ≠ "") (hNP : NP ≠ "")
    (hexp : String.intercalate "/" ((jsSplitSlash NP).dropLast ++ [oldName]) = OP) :
    ({ f with name := newName, path := some NP, handle := some NH } : EditorFile) ∈
      confirmRenameDocs docs oldName newName (some NP) (some NH) := by
  have hg : (fun f : EditorFile =>
      if f.name = oldName then
        if jsTruthy f.path && jsTruthy (some NP) then
          let expected := String.intercalate "/"
            ((jsSplitSlash ((some NP).getD "")).dropLast ++ [oldName])
          if f.path = some expected then
            { f with name := newName, path := jsOrS (some NP) f.path,
                     handle := (some NH).orElse (fun _ => f.handle) }
          else f
        else
          { f with name := newName, path := jsOrS (some NP) f.path,
                   handle := (some NH).orElse (fun _ => f.handle) }
      else f) f
      = { f with name := newName, path := some NP, handle := some NH } := by
    have ht1 : jsTruthy (some OP) = true := by simp [jsTruthy, hOP]
    have ht2 : jsTruthy (some NP) = true := by simp [jsTruthy, hNP]
    have hjs : jsOrS (some NP) f.path = some NP := by
      simp [jsOrS, jsTruthy, hNP]
    simp only [hname, hpath, ht1, ht2, Bool.and_self, if_pos rfl,
      Option.getD_some, hexp, hjs, Option.orElse, Option.some.injEq]
    simp [jsOrS, jsTruthy, hNP]
  exact hg ▸ List.mem_map_of_mem _ hf

/-- C4: after `confirmRename` succeeds on a file (through the host's
native move or the copy-then-delete fallback alike), the parent holds
exactly one entry named `newName` and none named `oldName` (counting
files and directories), and every open document bound to the renamed
entry (its name is `oldName` and its path the entry's old path) is
afterwards bound to `newName`: new name, new path, new handle. -/
theorem claim4_rename_atomicity (nm : Bool) (fs : Fs) (docs : List EditorFile)
    (parent : FPath) (oldName newName : String) (fs1 : Fs) (docs' : List EditorFile)
    (hne : oldName ≠ newName) (hnn : newName ≠ "")
    (hdso : (parent ++ [oldName]) ∉ fs.dirs)
    (hsplit : jsSplitSlash (String.intercalate "/" (parent ++ [newName]))
      = parent ++ [newName])
    (hOP : String.intercalate "/" (parent ++ [oldName]) ≠ "")
    (hNP : String.intercalate "/" (parent ++ [newName]) ≠ "")
    (hsucc : confirmRename nm fs docs parent oldName .file newName =
      (fs1, docs', some "Renamed successfully")) :
    countKey fs1.files (parent ++ [newName]) = 1 ∧
    countKey fs1.files (parent ++ [oldName]) = 0 ∧
    (parent ++ [newName]) ∉ fs1.dirs ∧
    (parent ++ [oldName]) ∉ fs1.dirs ∧
    (∀ f ∈ docs, f.name = oldName →
      f.path = some (String.intercalate "/" (parent ++ [oldName])) →
      ({ f with name := newName,
                path := some (String.intercalate "/" (parent ++ [newName])),
                handle := some (parent ++ [newName]) } : EditorFile) ∈ docs') := by
  have hne2 : ¬ (newName = oldName) := fun h => hne h.symm
  set oldKey := parent ++ [oldName] with hok
  set newKey := parent ++ [newName] with hnk
  have hkne : oldKey ≠ newKey := key_ne_of_last_ne hne
  rcases hre : renameEntry nm fs parent oldName newName .file with e | fsr
  · rw [confirmRename] at hsucc
    rw [if_neg (by simp [hnn, hne2])] at hsucc
    simp only [hre] at hsucc
    have h3 := congrArg (fun t => t.2.2) hsucc
    simp only [Option.some.injEq] at h3
    exact absurd h3 (by decide)
  · rcases renameEntry_file_ok_inv hre with ⟨hd1, hf1, hbr⟩
    have hall : ∃ C, fsr.dirs = fs.dirs ∧ countKey fsr.files newKey = 1 ∧
        countKey fsr.files oldKey = 0 ∧ fsr.dirAt newKey = false ∧
        fsr.lookupFile newKey = some C := by
      rcases hbr with ⟨_, hmn⟩ | ⟨_, hmm⟩
      · rcases nativeMove_file_ok_inv hmn with ⟨C, hndN, hlook, hfsr⟩
        refine ⟨C, ?_, ?_, ?_, ?_, ?_⟩
        · rw [hfsr]
        · rw [hfsr]
          show countKey ((newKey, C) :: eraseKey (eraseKey fs.files oldKey) newKey)
            newKey = 1
          rw [countKey_cons, if_pos rfl, countKey_eraseKey_self]
        · rw [hfsr]
          show countKey ((newKey, C) :: eraseKey (eraseKey fs.files oldKey) newKey)
            oldKey = 0
          rw [countKey_cons, if_neg (fun h => hkne h.symm),
            countKey_eraseKey_other _ _ _ hkne, countKey_eraseKey_self, Nat.zero_add]
        · rw [show fsr.dirAt newKey = fs.dirAt newKey from
            dirAt_eq_of_dirs_eq (by rw [hfsr]) newKey]
          exact hndN
        · rw [hfsr]
          show alookup ((newKey, C) :: eraseKey (eraseKey fs.files oldKey) newKey)
            newKey = some C
          rw [alookup_cons, if_pos rfl]
      · have hjs : jsOrName (some newName) oldName = newName := by
          simp [jsOrName, hnn]
        rcases moveEntry_file_ok_inv hmm with ⟨C, _, _, hlook, hndF, hfsr⟩
        rw [hjs] at hndF hfsr
        refine ⟨C, ?_, ?_, ?_, ?_, ?_⟩
        · rw [hfsr]
          rfl
        · rw [hfsr]
          show countKey (eraseKey ((newKey, C) ::
            eraseKey fs.files newKey) oldKey) newKey = 1
          rw [countKey_eraseKey_other _ _ _ (fun h => hkne h.symm), countKey_cons,
            if_pos rfl, countKey_eraseKey_self]
        · rw [hfsr]
          show countKey (eraseKey ((newKey, C) ::
            eraseKey fs.files newKey) oldKey) oldKey = 0
          rw [countKey_eraseKey_self]
        · rw [show fsr.dirAt newKey = fs.dirAt newKey from
            dirAt_eq_of_dirs_eq (by rw [hfsr]; rfl) newKey]
          exact hndF
        · rw [hfsr, lookupFile_eraseFile, if_neg (fun h => hkne h.symm),
            lookupFile_setFile, if_pos rfl]
    obtain ⟨C, hdirs, hc1, hc0, hndK, hlookN⟩ := hall
    have hdp : fsr.dirAt parent = true := by
      rw [dirAt_eq_of_dirs_eq hdirs]
      exact hd1
    have hgf : getFileHandle fsr parent newName = .ok newKey :=
      getFileHandle_ok fsr parent newName hdp (by simp [Fs.fileAt, hlookN])
    have hguard : (decide (newName = "") || decide (newName = oldName)) = false := by
      simp [hnn, hne2]
    rw [confirmRename] at hsucc
    rw [if_neg (by simp [hnn, hne2])] at hsucc
    simp only [hre, hgf] at hsucc
    have hNPval : (if parent = ([] : FPath) then some newName
        else if decide (parent ∈ fsr.dirs) = true then
          some (String.intercalate "/" (parent ++ [newName])) else none)
        = some (String.intercalate "/" (parent ++ [newName])) := by
      by_cases hp : parent = []
      · subst hp
        rfl
      · have hmem : parent ∈ fsr.dirs := by
          rw [hdirs]
          have h4 := hd1
          simp only [Fs.dirAt, Bool.or_eq_true, decide_eq_true_eq] at h4
          rcases h4 with h4 | h4
          · exact absurd h4 hp
          · exact h4
        simp [hp, hmem]
    rw [hNPval] at hsucc
    simp only [Prod.mk.injEq, Option.some.injEq] at hsucc
    obtain ⟨hfs1, hdocs, _⟩ := hsucc
    subst hfs1
    refine ⟨hc1, hc0, not_mem_dirs_of_dirAt_false hndK, ?_, ?_⟩
    · rw [hdirs]
      exact hdso
    · intro f hfmem hfname hfpath
      rw [← hdocs]
      refine confirmRenameDocs_mem docs oldName newName
        (String.intercalate "/" (parent ++ [oldName]))
        (String.intercalate "/" (parent ++ [newName]))
        newKey f hfmem hfname hfpath hOP hNP ?_
      rw [hsplit, List.dropLast_concat]

/-- A concrete instance of `claim4_rename_atomicity` (fallback path):
after renaming `a.md` to `b.md` at the root, exactly one `b.md` and no
`a.md` remain, and the open document follows. -/
theorem claim4_witness :
    countKey (Fs.mk [(["b.md"], "A")] []).files ([] ++ ["b.md"]) = 1 ∧
    countKey (Fs.mk [(["b.md"], "A")] []).files ([] ++ ["a.md"]) = 0 ∧
    ([] ++ ["b.md"]) ∉ (Fs.mk [(["b.md"], "A")] []).dirs ∧
    ([] ++ ["a.md"]) ∉ (Fs.mk [(["b.md"], "A")] []).dirs ∧
    (∀ f ∈ [(⟨3, "a.md", some "a.md", some ["a.md"], "A", false, none⟩ : EditorFile)],
      f.name = "a.md" →
      f.path = some (String.intercalate "/" ([] ++ ["a.md"])) →
      ({ f with name := "b.md",
                path := some (String.intercalate "/" ([] ++ ["b.md"])),
                handle := some ([] ++ ["b.md"]) } : EditorFile) ∈
        [(⟨3, "b.md", some "b.md", some ["b.md"], "A", false, none⟩ : EditorFile)]) :=
  claim4_rename_atomicity false ⟨[(["a.md"], "A")], []⟩
    [⟨3, "a.md", some "a.md", some ["a.md"], "A", false, none⟩] [] "a.md" "b.md"
    ⟨[(["b.md"], "A")], []⟩
    [⟨3, "b.md", some "b.md", some ["b.md"], "A", false, none⟩]
    (by decide) (by decide) (by decide) (by decide) (by decide) (by decide) (by decide)

/-! ## Helper lemmas for session restore -/

theorem restoreOne_none {fs : Fs} {sf : SavedFile}
    (h : jsTruthy sf.path = false ∨
      getFileHandleFromPath fs ((sf.path).getD "") = none) :
    restoreOne fs sf = none := by
  unfold restoreOne
  rcases h with h | h
  · simp [h]
  · by_cases h1 : jsTruthy sf.path = true
    · simp [h1, h]
    · simp [Bool.not_eq_true] at h1
      simp [h1]

theorem restoreOne_some {fs : Fs} {sf : SavedFile} {d : EditorFile}
    (h : restoreOne fs sf = some d) :
    ∃ hdl, jsTruthy sf.path = true ∧
      getFileHandleFromPath fs ((sf.path).getD "") = some hdl ∧
      d = { id := 0, name := sf.name, path := sf.path, handle := some hdl,
            content := if isImageFile (hdl.getLastD "") then ""
                       else (fs.lookupFile hdl).getD "",
            isDirty := false, cursorPosition := sf.cursorPosition } := by
  unfold restoreOne at h
  split_ifs at h with h1
  rcases hr : getFileHandleFromPath fs ((sf.path).getD "") with _ | hdl
  · rw [hr] at h
    exact Option.noConfusion h
  · rw [hr] at h
    injection h with he
    exact ⟨hdl, h1, rfl, he.symm⟩

theorem mem_assignIds {l : List EditorFile} {d0 : EditorFile} (hd : d0 ∈ l) :
    ∀ n : Nat, ∃ i, ({ d0 with id := i } : EditorFile) ∈ assignIds n l := by
  induction l with
  | nil => cases hd
  | cons f t ih =>
    intro n
    rcases List.mem_cons.mp hd with h | h
    · subst h
      exact ⟨n, List.mem_cons_self _ _⟩
    · rcases ih h (n + 1) with ⟨i, hi⟩
      exact ⟨i, List.mem_cons_of_mem _ hi⟩

/-- The fallback yields no documents or a single clean document that is
also the active one. -/
theorem restoreFallback_shape (fs : Fs) :
    restoreFallback fs = ([], none) ∨
      ∃ d : EditorFile, restoreFallback fs = ([d], some d.id) := by
  unfold restoreFallback
  rcases hl : listFiles fs [] with e | items
  · exact Or.inl rfl
  · dsimp only
    rcases hj : jsOrE
        (items.find? (fun i =>
          decide (jsToLower i.name = "readme.md") && decide (i.kind = EntryKind.file)))
        (items.find? (fun i =>
          jsEndsWith (jsToLower i.name) ".md" && decide (i.kind = EntryKind.file)))
      with _ | target
    · exact Or.inl rfl
    · dsimp only
      by_cases ht : target.kind = EntryKind.file
      · rw [if_pos ht]
        rcases hc : readFile fs [target.name] with e | content
        · exact Or.inl rfl
        · exact Or.inr ⟨_, rfl⟩
      · rw [if_neg ht]
        exact Or.inl rfl

/-- C5: session restore (i) silently skips a saved entry whose path is
untruthy or fails to resolve, restoring exactly as if the entry were
absent; (ii) gives every successfully resolved entry a Bound document
with the saved name, path and cursor, a fresh handle, and
`isDirty = false`; (iii) makes the document whose path equals the saved
`activeFilePath` the active one; and (iv)/(v) when no entry restores,
falls back to opening, clean and alone, a case-insensitive `README.md`
from the root listing, else the first `*.md` file in listing order. -/
theorem claim5_session_restore (fs : Fs) :
    (∀ (sf : SavedFile) (rest : List SavedFile) (act : Option String),
      (jsTruthy sf.path = false ∨
        getFileHandleFromPath fs ((sf.path).getD "") = none) →
      restoreWorkspace fs (some ⟨sf :: rest, act⟩) =
        restoreWorkspace fs (some ⟨rest, act⟩)) ∧
    (∀ (sw : SavedWorkspace) (sf : SavedFile) (hdl : FPath),
      sf ∈ sw.openFiles → jsTruthy sf.path = true →
      getFileHandleFromPath fs ((sf.path).getD "") = some hdl →
      ∃ d ∈ (restoreWorkspace fs (some sw)).1,
        d.name = sf.name ∧ d.path = sf.path ∧ d.handle = some hdl ∧
        d.isDirty = false ∧ d.cursorPosition = sf.cursorPosition) ∧
    (∀ (sw : SavedWorkspace) (d₀ : EditorFile),
      jsTruthy sw.activeFilePath = true →
      (restoreWorkspace fs (some sw)).1.find?
        (fun d => d.path = sw.activeFilePath) = some d₀ →
      (restoreWorkspace fs (some sw)).2 = some d₀.id) ∧
    (∀ (sw : SavedWorkspace) (items : List Entry) (r : Entry) (c : String),
      (∀ sf ∈ sw.openFiles, jsTruthy sf.path = false ∨
        getFileHandleFromPath fs ((sf.path).getD "") = none) →
      listFiles fs [] = .ok items →
      items.find? (fun i => decide (jsToLower i.name = "readme.md") &&
        decide (i.kind = EntryKind.file)) = some r →
      fs.lookupFile [r.name] = some c →
      restoreWorkspace fs (some sw) =
        ([{ id := 0, name := r.name, path := some r.name, handle := some [r.name],
            content := c, isDirty := false, cursorPosition := none }], some 0)) ∧
    (∀ (sw : SavedWorkspace) (items : List Entry) (m : Entry) (c : String),
      (∀ sf ∈ sw.openFiles, jsTruthy sf.path = false ∨
        getFileHandleFromPath fs ((sf.path).getD "") = none) →
      listFiles fs [] = .ok items →
      items.find? (fun i => decide (jsToLower i.name = "readme.md") &&
        decide (i.kind = EntryKind.file)) = none →
      items.find? (fun i => jsEndsWith (jsToLower i.name) ".md" &&
        decide (i.kind = EntryKind.file)) = some m →
      fs.lookupFile [m.name] = some c →
      restoreWorkspace fs (some sw) =
        ([{ id := 0, name := m.name, path := some m.name, handle := some [m.name],
            content := c, isDirty := false, cursorPosition := none }], some 0)) := by
  refine ⟨?_, ?_, ?_, ?_, ?_⟩
  · intro sf rest act h
    have hro := restoreOne_none h
    simp [restoreWorkspace, List.filterMap_cons, hro]
  · intro sw sf hdl hmem hpt hres
    have hro : restoreOne fs sf = some
        (⟨0, sf.name, sf.path, some hdl,
          if isImageFile (hdl.getLastD "") then "" else (fs.lookupFile hdl).getD "",
          false, sf.cursorPosition⟩ : EditorFile) := by
      simp [restoreOne, hpt, hres]
    have hd0mem : (⟨0, sf.name, sf.path, some hdl,
        if isImageFile (hdl.getLastD "") then "" else (fs.lookupFile hdl).getD "",
        false, sf.cursorPosition⟩ : EditorFile) ∈
          sw.openFiles.filterMap (restoreOne fs) :=
      List.mem_filterMap.mpr ⟨sf, hmem, hro⟩
    rcases mem_assignIds hd0mem 0 with ⟨i, hi⟩
    have hne : (assignIds 0 (sw.openFiles.filterMap (restoreOne fs))).isEmpty
        = false := by
      rcases hassign : assignIds 0 (sw.openFiles.filterMap (restoreOne fs))
        with _ | ⟨x, xs⟩
      · rw [hassign] at hi
        cases hi
      · rfl
    have hL : (restoreWorkspace fs (some sw)).1 =
        assignIds 0 (sw.openFiles.filterMap (restoreOne fs)) := by
      simp [restoreWorkspace, hne]
    rw [hL]
    exact ⟨_, hi, rfl, rfl, rfl, rfl, rfl⟩
  · intro sw d₀ hact hfind
    rcases hassign : assignIds 0 (sw.openFiles.filterMap (restoreOne fs))
      with _ | ⟨x, xs⟩
    · have hL : restoreWorkspace fs (some sw) = restoreFallback fs := by
        simp [restoreWorkspace, hassign]
      rw [hL] at hfind ⊢
      rcases restoreFallback_shape fs with hsh | ⟨d, hsh⟩
      · rw [hsh] at hfind
        simp at hfind
      · rw [hsh] at hfind ⊢
        have hdd : d₀ = d := by
          by_cases hp : d.path = sw.activeFilePath
          · simp [List.find?, hp] at hfind
            exact hfind.symm
          · simp [List.find?, hp] at hfind
        rw [hdd]
    · have hL1 : (restoreWorkspace fs (some sw)).1 = x :: xs := by
        simp [restoreWorkspace, hassign]
      have hL2 : (restoreWorkspace fs (some sw)).2 =
          (match (x :: xs).find? (fun d => d.path = sw.activeFilePath) with
            | some d => some d.id
            | none => ((x :: xs).head?).map (fun d => d.id)) := by
        simp [restoreWorkspace, hassign, hact]
      rw [hL1] at hfind
      rw [hL2, hfind]
  · intro sw items r c hall hlist hfind hlook
    have hnil : sw.openFiles.filterMap (restoreOne fs) = [] :=
      List.filterMap_eq_nil_iff.mpr (fun sf hsf => restoreOne_none (hall sf hsf))
    have hL : restoreWorkspace fs (some sw) = restoreFallback fs := by
      simp [restoreWorkspace, hnil, assignIds]
    rw [hL]
    have hkind : r.kind = EntryKind.file := by
      have h1 := List.find?_some hfind
      simp only [Bool.and_eq_true, decide_eq_true_eq] at h1
      exact h1.2
    have hread : readFile fs [r.name] = .ok c := by
      simp [readFile, readFileH, hlook]
    unfold restoreFallback
    rw [hlist]
    dsimp only
    rw [hfind]
    dsimp only [jsOrE]
    rw [if_pos hkind, hread]
  · intro sw items m c hall hlist hnone hfind hlook
    have hnil : sw.openFiles.filterMap (restoreOne fs) = [] :=
      List.filterMap_eq_nil_iff.mpr (fun sf hsf => restoreOne_none (hall sf hsf))
    have hL : restoreWorkspace fs (some sw) = restoreFallback fs := by
      simp [restoreWorkspace, hnil, assignIds]
    rw [hL]
    have hkind : m.kind = EntryKind.file := by
      have h1 := List.find?_some hfind
      simp only [Bool.and_eq_true, decide_eq_true_eq] at h1
      exact h1.2
    have hread : readFile fs [m.name] = .ok c := by
      simp [readFile, readFileH, hlook]
    unfold restoreFallback
    rw [hlist]
    dsimp only
    rw [hnone, hfind]
    dsimp only [jsOrE]
    rw [if_pos hkind, hread]

/-- A concrete instance of `claim5_session_restore`: a session entry at
`notes/a.md` restores as a clean Bound document, and an empty session
falls back to the root `README.md`. -/
theorem claim5_witness :
    (∃ d ∈ (restoreWorkspace
        ⟨[(["notes", "a.md"], "# A"), (["README.md"], "r")], [["notes"]]⟩
        (some ⟨[⟨"a.md", some "notes/a.md", none⟩], some "notes/a.md"⟩)).1,
      d.name = (SavedFile.mk "a.md" (some "notes/a.md") none).name ∧
      d.path = (SavedFile.mk "a.md" (some "notes/a.md") none).path ∧
      d.handle = some ["notes", "a.md"] ∧ d.isDirty = false ∧
      d.cursorPosition = (SavedFile.mk "a.md" (some "notes/a.md") none).cursorPosition) ∧
    restoreWorkspace ⟨[(["notes", "a.md"], "# A"), (["README.md"], "r")], [["notes"]]⟩
        (some ⟨[], none⟩) =
      ([{ id := 0, name := (Entry.mk "README.md" .file).name,
          path := some (Entry.mk "README.md" .file).name,
          handle := some [(Entry.mk "README.md" .file).name], content := "r",
          isDirty := false, cursorPosition := none }], some 0) :=
  ⟨(claim5_session_restore
      ⟨[(["notes", "a.md"], "# A"), (["README.md"], "r")], [["notes"]]⟩).2.1
      ⟨[⟨"a.md", some "notes/a.md", none⟩], some "notes/a.md"⟩
      ⟨"a.md", some "notes/a.md", none⟩ ["notes", "a.md"]
      (by decide) (by decide) (by decide),
   (claim5_session_restore
      ⟨[(["notes", "a.md"], "# A"), (["README.md"], "r")], [["notes"]]⟩).2.2.2.1
      ⟨[], none⟩ [⟨"notes", .dir⟩, ⟨"README.md", .file⟩] ⟨"README.md", .file⟩ "r"
      (fun sf hsf => absurd hsf (List.not_mem_nil sf))
      (by rfl) (by decide) (by decide)⟩

end WebMarkdownEdit
